import Mathlib

/-!
# Verification of the Data-Privacy-Protection-System crypto core

A shallow embedding of the server-side core of the repository
(`server/encryption.ts`, `server/storage.ts` (MemStorage),
`server/anomaly-detection.ts`, `server/routes.ts`).

Modelling conventions:

* JS byte buffers are `List ℕ`; a JS string that is built by joining
  hex-encoded chunks with `':'` is modelled as the list of its
  colon-separated segments (`List Seg`).  Hex encoding is a bijection
  between byte buffers and colon-free text, so `s.split(':')` is the
  identity on this representation and `` `${a}:${b}` `` is list
  concatenation of segment lists.
* Node's `createCipheriv('aes-256-cbc', key, iv)` is modelled as an
  executable keyed stream bijection together with the library's key/IV
  length checks (a 16-byte key is rejected for the `aes-256-cbc`
  cipher, which is what Node does).  Claims in scope depend on the
  library round-trip `dec k (enc k p) = p` and on the length checks,
  not on the block structure of AES.
* RSA key pairs and P-256 key pairs are modelled by a shared scalar
  seed; ECDH commutativity `e * n = n * e` models
  `computeSecret`'s agreement on the shared point.
* `JSON.stringify`/`JSON.parse` of the key payloads and of the backup
  document are modelled by an injective executable encoder with a
  verified partial-inverse decoder.
* Timestamps (`new Date()`) are explicit `now : ℕ` arguments;
  `randomBytes` results are explicit arguments.
-/

/-- A colon-free wire segment (in the source: a hex string), or a raw
byte buffer. -/
abbrev Seg : Type := List Nat

/-- The four members of the `ALGORITHMS` constant of `encryption.ts`. -/
inductive Algorithm where
  | aes256 | aes128 | rsa2048 | eccP256
deriving DecidableEq, Repr

/-- Key status strings used by the source (`'active'`, `'revoked'`,
`'expired'`, `'inactive'`). -/
inductive KeyStatus where
  | active | revoked | expired | inactive
deriving DecidableEq, Repr

/-- `operation` field of an `encryption_operations` row. -/
inductive OpKind where
  | encryptOp | decryptOp
deriving DecidableEq, Repr

/-- Audit `action` values written by the modelled core paths. -/
inductive AuditAction where
  | dataEncrypt | dataDecrypt | keyRevoke | keyBackup | keyRestore | anomalyDetected
deriving DecidableEq, Repr

/-- Audit `status` values. -/
inductive AuditStatus where
  | success | failed | warning
deriving DecidableEq, Repr

/-- Anomaly severities. -/
inductive Severity where
  | low | medium | high
deriving DecidableEq, Repr

/-- The `anomalyType` strings of `anomaly-detection.ts`. -/
inductive AnomalyType where
  | highVolume | highFailureRate | revokedKeyUsage | unusualTime
deriving DecidableEq, Repr

/-- Error messages thrown by the modelled paths, as an inductive type
(the source throws `Error` with distinguishable message strings). -/
inductive ErrMsg where
  /-- `'Key not found'` -/
  | keyNotFound
  /-- `` `Key is not active (status: ...)` `` -/
  | keyNotActive (s : KeyStatus)
  /-- Node `ERR_CRYPTO_INVALID_KEYLEN` from `createCipheriv`/`createDecipheriv`. -/
  | invalidKeyLen
  /-- Node invalid-IV-length error from `createCipheriv`/`createDecipheriv`. -/
  | invalidIvLen
  /-- the unwrapped key payload does not parse (`JSON.parse` throw or
  missing field access on the parsed object). -/
  | badPayload
  /-- AES decrypt branch: the envelope has no second segment, so
  `decipher.update(undefined, ...)` throws. -/
  | badEnvelope
  /-- `'Invalid encrypted data format for ECC decryption'` -/
  | eccFormat
  /-- `` `Expected 3 parts in encrypted data ..., got n` `` -/
  | eccParts (n : Nat)
  /-- `computeSecret` throws on a malformed ephemeral public point. -/
  | badPoint
  /-- Node `data too large for key size` from `publicEncrypt`. -/
  | dataTooLarge
  /-- `` `ECC encryption failed: ...` `` / `` `ECC decryption failed: ...` ``
  wrapping of an inner message. -/
  | eccWrap (inner : ErrMsg)
  /-- `'No keys found for backup'` -/
  | noKeysForBackup
  /-- `'Invalid backup format'` (also covers a `JSON.parse` throw on the
  decrypted artifact). -/
  | badBackupFormat
deriving DecidableEq, Repr

/-- `details.error.includes('not active')`: among the reachable
messages only `keyNotActive` (possibly inside an ECC wrap) contains the
substring `'not active'`. -/
def errHasNotActive : ErrMsg → Bool
  | .keyNotActive _ => true
  | .eccWrap m => errHasNotActive m
  | _ => false

/-- The structured `details` JSON column of an audit row, restricted to
the shapes the modelled paths write. -/
inductive Details where
  | dNone
  | dAlgoKey (alg : Algorithm) (pubId : Seg)
  | dErr (e : ErrMsg)
  | dKeyName (n : Seg)
  | dKeyCount (n : Nat)
  | dRestored (n : Nat)
  | dAnomaly (t : AnomalyType) (sev : Severity)
deriving DecidableEq, Repr

/-- `details.error && details.error.includes('not active')`. -/
def detailsHasNotActive : Details → Bool
  | .dErr e => errHasNotActive e
  | _ => false

/-- The `resource` column (a string in the source; the distinct string
values used by the modelled paths form this sum). -/
inductive Res where
  | rStr (s : Seg)
  | rAnomaly (t : AnomalyType)
  | rBackupLit
deriving DecidableEq, Repr

/-! ## The cipher model

`createCipheriv('aes-256-cbc', key, iv)` rejects keys that are not 32
bytes and IVs that are not 16 bytes; on valid lengths the cipher is a
bijection on payloads for a fixed `(key, iv)`.  We model the bijection
as a keyed token shift (sufficient for every claim in scope, which only
use the same-key round trip and the length checks). -/

/-- Key schedule: any function of the key and IV bytes. -/
def keyStream (key iv : Seg) : Nat :=
  key.sum * 65536 + iv.sum + 1

/-- The keyed bijection (encryption direction). -/
def streamEnc (k : Nat) (p : Seg) : Seg := p.map (· + k)

/-- The keyed bijection (decryption direction). -/
def streamDec (k : Nat) (c : Seg) : Seg := c.map (· - k)

theorem streamDec_streamEnc (k : Nat) (p : Seg) : streamDec k (streamEnc k p) = p := by
  simp [streamEnc, streamDec, Function.comp_def]

/-- `encryptAES` of `encryption.ts`: hardcodes the `'aes-256-cbc'`
cipher, so Node's `createCipheriv` throws unless the key is exactly 32
bytes and the IV 16 bytes.  Returns the ciphertext segment (the source
also returns the IV in hex; callers re-attach it). -/
def encryptAES (data : Seg) (key : Seg) (iv : Seg) : Except ErrMsg Seg :=
  if key.length ≠ 32 then .error .invalidKeyLen
  else if iv.length ≠ 16 then .error .invalidIvLen
  else .ok (streamEnc (keyStream key iv) data)

/-- `decryptAES` of `encryption.ts` (same hardcoded cipher and length
checks). -/
def decryptAES (encrypted : Seg) (key : Seg) (iv : Seg) : Except ErrMsg Seg :=
  if key.length ≠ 32 then .error .invalidKeyLen
  else if iv.length ≠ 16 then .error .invalidIvLen
  else .ok (streamDec (keyStream key iv) encrypted)

theorem decryptAES_encryptAES (data key iv : Seg)
    (hk : key.length = 32) (hiv : iv.length = 16) :
    (encryptAES data key iv).bind (fun ct => decryptAES ct key iv) = .ok data := by
  simp [encryptAES, decryptAES, hk, hiv, Except.bind, streamDec_streamEnc]

/-! ## RSA and ECC primitive models

A generated RSA-2048 or P-256 key pair is modelled by one scalar seed
`n`; the PEM public and private members of the pair both determine `n`.
For ECDH, `computeSecret` on a valid peer-point encoding is scalar
multiplication of the peer coordinate by the local scalar, so two
honest sides of an exchange would agree by commutativity of
multiplication; on a buffer that is not a valid point encoding it
throws.  The encrypt side, however, does not hand `computeSecret` a
valid point: it extracts the peer point from the SPKI DER with a byte
scan (`extractPublicKeyFromDER`) that is modelled below at the byte
level, because its result on every P-256 SPKI is not a point. -/

/-- Key schedule an RSA key induces on the modelled cipher. -/
def rsaStream (n : Nat) : Nat := n * 131072 + 3

/-- `encryptRSA` (`publicEncrypt` with PKCS#1 v1.5 padding): Node
rejects plaintexts longer than `modulus - 11 = 245` bytes for a
2048-bit key. -/
def encryptRSA (data : Seg) (pub : Nat) : Except ErrMsg Seg :=
  if data.length > 245 then .error .dataTooLarge
  else .ok (streamEnc (rsaStream pub) data)

/-- `decryptRSA` (`privateDecrypt`).  `Buffer.from(data, 'hex')` stops
at the first non-hex character, so only the first colon-separated
segment of the input reaches the primitive; callers pass that prefix. -/
def decryptRSA (ct : Seg) (priv : Nat) : Except ErrMsg Seg :=
  .ok (streamDec (rsaStream priv) ct)

/-- `createHash('sha256').update(sharedSecret).digest()`: a 32-byte
digest of the shared point (any fixed function of it with a 32-byte
result). -/
def kdfSha256 (shared : Nat) : Seg :=
  (List.range 32).map (fun i => shared + i)

theorem kdfSha256_length (shared : Nat) : (kdfSha256 shared).length = 32 := by
  simp [kdfSha256]

/-- The uncompressed-point encoding (65 bytes, leading `0x04`) of the
P-256 point with abstract coordinate `m`; `ecdh.getPublicKey()` emits
this form and `computeSecret` expects it from a peer. -/
def pointBytes (m : Nat) : Seg :=
  4 :: m :: List.replicate 63 0

/-- Partial inverse of `pointBytes`: Node parses the peer buffer as a
point encoding and `computeSecret` throws on anything that is not
one. -/
def decodePoint : Seg → Option Nat
  | 4 :: m :: rest => if rest = List.replicate 63 0 then some m else none
  | _ => none

/-- `ecdh.computeSecret(peer)` for a local scalar: throws when the
peer buffer is not a valid point encoding, and otherwise yields the
shared point, modelled as the product of the local scalar and the
peer coordinate. -/
def computeSecret (scalar : Nat) (peer : Seg) : Except ErrMsg Nat :=
  match decodePoint peer with
  | none => .error .badPoint
  | some m => .ok (scalar * m)

/-- The 26 bytes every P-256 SPKI DER starts with: SEQUENCE(89),
SEQUENCE(19), OID 1.2.840.10045.2.1 (ecPublicKey, bytes
`06 07 2a 86 48 ce 3d 02 01`), OID 1.2.840.10045.3.1.7 (prime256v1,
bytes `06 08 2a 86 48 ce 3d 03 01 07`), then the BIT STRING tag
`0x03`, its length byte `0x42`, and the zero unused-bits byte; the
uncompressed point follows at offset 26. -/
def spkiHeader : Seg :=
  [48, 89, 48, 19, 6, 7, 42, 134, 72, 206, 61, 2, 1,
   6, 8, 42, 134, 72, 206, 61, 3, 1, 7, 3, 66, 0]

/-- The SPKI DER the stored public-key PEM of a generated P-256 key
with seed `n` decodes to. -/
def eccSpkiDer (n : Nat) : Seg :=
  spkiHeader ++ pointBytes n

/-- The loop of `extractPublicKeyFromDER`: scan for the first `0x03`
byte, skip it, the length byte and the unused-bits byte, and return
the rest of the buffer. -/
def derScan03 : Seg → Option Seg
  | [] => none
  | b :: rest => if b = 3 then some (rest.drop 2) else derScan03 rest

/-- `extractPublicKeyFromDER`: runs the `0x03` scan and, when no
`0x03` byte exists, falls back to the last 65 bytes.  On every P-256
SPKI the first `0x03` sits inside the prime256v1 OID at offset 20,
before the real BIT STRING tag at offset 23, so the scan returns
`der.drop 23` — a 68-byte buffer starting `03 42 00 04`, not a point
encoding. -/
def extractPublicKeyFromDER (der : Seg) : Seg :=
  match derScan03 der with
  | some point => point
  | none => der.drop (der.length - 65)

/-- `deriveSharedSecretFromPublicKey`: strip the PEM armour, base64-
decode to the SPKI DER, extract the peer point with the byte scan,
and hand the result to `ecdh.computeSecret`. -/
def deriveSharedSecretFromPublicKey (scalar : Nat) (pubSeed : Nat) : Except ErrMsg Nat :=
  computeSecret scalar (extractPublicKeyFromDER (eccSpkiDer pubSeed))

/-- `encryptWithECC`: generate an ephemeral scalar `eph`, derive the
shared secret from the recipient PEM via
`deriveSharedSecretFromPublicKey`, hash it into an AES key, encrypt
under a fresh 16-byte `iv`, and emit the envelope
`ephemeralPublicKey:iv:encrypted`.  Any error is re-thrown wrapped in
`` `ECC encryption failed: ...` `` — and the shared-secret derivation
always throws, because the byte scan hands `computeSecret` a
non-point. -/
def encryptWithECC (data : Seg) (pub : Nat) (iv : Seg) (eph : Nat) :
    Except ErrMsg (List Seg) :=
  match deriveSharedSecretFromPublicKey eph pub with
  | .error e => .error (.eccWrap e)
  | .ok shared =>
    match encryptAES data (kdfSha256 shared) iv with
    | .error e => .error (.eccWrap e)
    | .ok ct => .ok [pointBytes eph, iv, ct]

/-- `decryptWithECC`: rejects inputs without a `':'` (fewer than two
segments), then requires exactly 3 segments, loads the stored private
scalar — `loadECPrivateKey` does succeed on a P-256 PKCS#8 DER: its
octet-string scan skips the outer wrapper whole, and the `0x20`
length-byte fallback then finds the 32-byte private value — and
computes the shared secret directly from the envelope's raw
ephemeral-point bytes (no DER scan on this side), then AES-decrypts.
Any error is re-thrown wrapped in
`` `ECC decryption failed: ...` ``. -/
def decryptWithECC (env : List Seg) (priv : Nat) : Except ErrMsg Seg :=
  let inner : Except ErrMsg Seg :=
    if env.length < 2 then .error .eccFormat
    else match env with
      | [ephSeg, ivSeg, ct] =>
        match computeSecret priv ephSeg with
        | .error e => .error e
        | .ok shared => decryptAES ct (kdfSha256 shared) ivSeg
      | _ => .error (.eccParts env.length)
  match inner with
  | .error e => .error (.eccWrap e)
  | .ok r => .ok r

/-! ## Key payloads and their JSON codec

`generateKey` serializes `{key}` or `{publicKey, privateKey}` with
`JSON.stringify` before wrapping; `getDecryptedKey` parses it back.
The codec below is injective with a verified partial inverse. -/

/-- The parsed `keyData` JSON of a key record. -/
inductive Payload where
  /-- `{ key: <hex> }` for the AES algorithms. -/
  | aes (key : Seg)
  /-- `{ publicKey: <pem>, privateKey: <pem> }` for RSA and ECC; both
  PEMs of one generated pair carry the same scalar seed. -/
  | asym (pub priv : Nat)
deriving DecidableEq, Repr

/-- Serialization of a payload (models `JSON.stringify`). -/
def encodePayload : Payload → Seg
  | .aes k => 0 :: k.length :: k
  | .asym pub priv => [1, pub, priv]

/-- Parse of a serialized payload (models `JSON.parse` plus the field
accesses of the consumers); `none` models a throw. -/
def decodePayload : Seg → Option Payload
  | 0 :: n :: rest => if rest.length = n then some (.aes rest) else none
  | [1, pub, priv] => some (.asym pub priv)
  | _ => none

theorem decodePayload_encodePayload (p : Payload) :
    decodePayload (encodePayload p) = some p := by
  cases p <;> simp [encodePayload, decodePayload]

/-! ## Backup document codec -/

/-- One entry of the `keys` array of a backup document
(`generateKeyBackup` emits `{keyId, name, algorithm, status, createdAt,
keyData, iv}`). -/
structure BEntry where
  keyId : Seg
  name : Seg
  algorithm : Algorithm
  status : KeyStatus
  createdAt : Nat
  keyData : Seg
  iv : Seg
deriving DecidableEq, Repr

/-- The backup document `{version, timestamp, keys}`. -/
structure BackupDoc where
  version : Seg
  timestamp : Nat
  keys : List BEntry
deriving DecidableEq, Repr

/-- Length-prefixed encoding of one segment. -/
def encSeg (s : Seg) : Seg := s.length :: s

/-- Decode a length-prefixed segment, returning it and the rest. -/
def decSeg : Seg → Option (Seg × Seg)
  | [] => none
  | n :: rest => if n ≤ rest.length then some (rest.take n, rest.drop n) else none

theorem decSeg_encSeg (s r : Seg) : decSeg (encSeg s ++ r) = some (s, r) := by
  simp [encSeg, decSeg, List.take_append, List.drop_append]

/-- Numeric code of an algorithm string. -/
def algCode : Algorithm → Nat
  | .aes256 => 0 | .aes128 => 1 | .rsa2048 => 2 | .eccP256 => 3

/-- Decode of an algorithm string. -/
def algOfCode : Nat → Option Algorithm
  | 0 => some .aes256 | 1 => some .aes128 | 2 => some .rsa2048 | 3 => some .eccP256
  | _ => none

theorem algOfCode_algCode (a : Algorithm) : algOfCode (algCode a) = some a := by
  cases a <;> rfl

/-- Numeric code of a status string. -/
def statusCode : KeyStatus → Nat
  | .active => 0 | .revoked => 1 | .expired => 2 | .inactive => 3

/-- Decode of a status string. -/
def statusOfCode : Nat → Option KeyStatus
  | 0 => some .active | 1 => some .revoked | 2 => some .expired | 3 => some .inactive
  | _ => none

theorem statusOfCode_statusCode (s : KeyStatus) : statusOfCode (statusCode s) = some s := by
  cases s <;> rfl

/-- Encoding of one backup entry. -/
def encEntry (e : BEntry) : Seg :=
  encSeg e.keyId ++ encSeg e.name ++ [algCode e.algorithm, statusCode e.status, e.createdAt]
    ++ encSeg e.keyData ++ encSeg e.iv

/-- Decode of one backup entry. -/
def decEntry (l : Seg) : Option (BEntry × Seg) := do
  let (kid, l) ← decSeg l
  let (nm, l) ← decSeg l
  match l with
  | a :: s :: c :: l =>
    let alg ← algOfCode a
    let st ← statusOfCode s
    let (kd, l) ← decSeg l
    let (iv, l) ← decSeg l
    pure (⟨kid, nm, alg, st, c, kd, iv⟩, l)
  | _ => none

theorem decEntry_encEntry (e : BEntry) (r : Seg) :
    decEntry (encEntry e ++ r) = some (e, r) := by
  obtain ⟨kid, nm, alg, st, c, kd, iv⟩ := e
  simp [encEntry, decEntry, decSeg_encSeg, algOfCode_algCode, statusOfCode_statusCode]

/-- Encoding of a list of entries (the entry count is emitted by the
document encoder). -/
def encEntries : List BEntry → Seg
  | [] => []
  | e :: es => encEntry e ++ encEntries es

/-- Decode of `n` consecutive entries. -/
def decEntries : Nat → Seg → Option (List BEntry × Seg)
  | 0, l => some ([], l)
  | n + 1, l => do
    let (e, l) ← decEntry l
    let (es, l) ← decEntries n l
    pure (e :: es, l)

theorem decEntries_encEntries (es : List BEntry) (r : Seg) :
    decEntries es.length (encEntries es ++ r) = some (es, r) := by
  induction es generalizing r with
  | nil => simp [encEntries, decEntries]
  | cons e es ih =>
    simp [encEntries, decEntries, List.append_assoc, decEntry_encEntry, ih]

/-- Serialization of the backup document (models `JSON.stringify`). -/
def encodeDoc (d : BackupDoc) : Seg :=
  encSeg d.version ++ d.timestamp :: d.keys.length :: encEntries d.keys

/-- Parse of a backup document; `none` models a `JSON.parse` throw or a
document whose `keys` member is not an array. -/
def decodeDoc (l : Seg) : Option BackupDoc := do
  let (v, l) ← decSeg l
  match l with
  | ts :: n :: l =>
    let (es, rest) ← decEntries n l
    if rest = [] then pure ⟨v, ts, es⟩ else none
  | _ => none

theorem decodeDoc_encodeDoc (d : BackupDoc) : decodeDoc (encodeDoc d) = some d := by
  obtain ⟨v, ts, ks⟩ := d
  have h := decEntries_encEntries ks []
  simp only [List.append_nil] at h
  simp [encodeDoc, decodeDoc, decSeg_encSeg, h]

/-! ## Records and the in-memory storage (`MemStorage`) -/

/-- A row of `encryption_keys`. -/
structure KeyRec where
  id : Nat
  name : Seg
  userId : Nat
  keyId : Seg
  algorithm : Algorithm
  keyData : Seg
  iv : Seg
  status : KeyStatus
  createdAt : Nat
  updatedAt : Nat
  expiresAt : Option Nat
  lastUsed : Option Nat
deriving DecidableEq, Repr

/-- The insert shape for `createKey` (id and timestamps are assigned by
the store). -/
structure InsertKey where
  name : Seg
  userId : Nat
  keyId : Seg
  algorithm : Algorithm
  keyData : Seg
  iv : Seg
  status : KeyStatus
  expiresAt : Option Nat
deriving DecidableEq, Repr

/-- A row of `encryption_operations`. -/
structure OpRec where
  id : Nat
  userId : Nat
  keyId : Option Nat
  operation : OpKind
  algorithm : Algorithm
  resourceName : Option Seg
  status : Seg
  timestamp : Nat
deriving DecidableEq, Repr

/-- A row of `audit_logs`. -/
structure AuditRec where
  id : Nat
  userId : Option Nat
  action : AuditAction
  resource : Option Res
  status : AuditStatus
  details : Details
  timestamp : Nat
deriving DecidableEq, Repr

/-- The insert shape for `recordAuditLog`. -/
structure InsertAudit where
  userId : Option Nat
  action : AuditAction
  resource : Option Res
  status : AuditStatus
  details : Details
deriving DecidableEq, Repr

/-- `MemStorage`: the three `Map`s (in ascending insertion order, which
is the iteration order of `Array.from(map.values())` for
counter-keyed maps) and the id counters. -/
structure Storage where
  keys : List KeyRec
  ops : List OpRec
  audits : List AuditRec
  keyCtr : Nat
  opCtr : Nat
  auditCtr : Nat
deriving DecidableEq, Repr

/-- The empty store (counters start at 1). -/
def Storage.init : Storage := ⟨[], [], [], 1, 1, 1⟩

/-- `this.keysStore.get(id)`. -/
def findKey : List KeyRec → Nat → Option KeyRec
  | [], _ => none
  | r :: rs, i => if r.id = i then some r else findKey rs i

/-- `getKeyByKeyId` via the `keyIdIndex`. -/
def findByKeyId : List KeyRec → Seg → Option KeyRec
  | [], _ => none
  | r :: rs, kid => if r.keyId = kid then some r else findByKeyId rs kid

/-- `this.keysStore.set(id, updated)` for an id already present. -/
def replaceKey : List KeyRec → Nat → KeyRec → List KeyRec
  | [], _, _ => []
  | r :: rs, i, nr => if r.id = i then nr :: rs else r :: replaceKey rs i nr

/-- `MemStorage.createKey`. -/
def Storage.createKey (st : Storage) (k : InsertKey) (now : Nat) : KeyRec × Storage :=
  let row : KeyRec :=
    { id := st.keyCtr, name := k.name, userId := k.userId, keyId := k.keyId
      algorithm := k.algorithm, keyData := k.keyData, iv := k.iv, status := k.status
      createdAt := now, updatedAt := now, expiresAt := k.expiresAt, lastUsed := none }
  (row, { st with keys := st.keys ++ [row], keyCtr := st.keyCtr + 1 })

/-- `MemStorage.getKey`. -/
def Storage.getKey (st : Storage) (id : Nat) : Option KeyRec := findKey st.keys id

/-- `MemStorage.getKeyByKeyId`. -/
def Storage.getKeyByKeyId (st : Storage) (kid : Seg) : Option KeyRec :=
  findByKeyId st.keys kid

/-- `MemStorage.getUserKeys`. -/
def Storage.getUserKeys (st : Storage) (uid : Nat) : List KeyRec :=
  st.keys.filter (fun k => k.userId = uid)

/-- The two partial-update shapes `updateKey` is called with
(`{lastUsed}` from `getDecryptedKey` and `{status: 'revoked'}` from
`revokeKey`). -/
inductive KeyPatch where
  | setLastUsed (t : Nat)
  | setStatus (s : KeyStatus)
deriving DecidableEq, Repr

/-- Spreading the patch over the record; `updateKey` always rewrites
`updatedAt` with the current time. -/
def applyPatch (r : KeyRec) (p : KeyPatch) (now : Nat) : KeyRec :=
  match p with
  | .setLastUsed t => { r with lastUsed := some t, updatedAt := now }
  | .setStatus s => { r with status := s, updatedAt := now }

/-- `MemStorage.updateKey`. -/
def Storage.updateKey (st : Storage) (id : Nat) (p : KeyPatch) (now : Nat) :
    Option KeyRec × Storage :=
  match findKey st.keys id with
  | none => (none, st)
  | some r =>
    let nr := applyPatch r p now
    (some nr, { st with keys := replaceKey st.keys id nr })

/-- `MemStorage.recordOperation`. -/
def Storage.recordOperation (st : Storage) (uid : Nat) (keyRef : Option Nat)
    (op : OpKind) (alg : Algorithm) (res : Option Seg) (status : Seg) (now : Nat) :
    Storage :=
  let row : OpRec :=
    { id := st.opCtr, userId := uid, keyId := keyRef, operation := op
      algorithm := alg, resourceName := res, status := status, timestamp := now }
  { st with ops := st.ops ++ [row], opCtr := st.opCtr + 1 }

/-- `MemStorage.recordAuditLog`. -/
def Storage.recordAuditLog (st : Storage) (a : InsertAudit) (now : Nat) : Storage :=
  let row : AuditRec :=
    { id := st.auditCtr, userId := a.userId, action := a.action, resource := a.resource
      status := a.status, details := a.details, timestamp := now }
  { st with audits := st.audits ++ [row], auditCtr := st.auditCtr + 1 }

/-! ### Sorted, limited queries

`getOperationsByUser` and `getAuditLogs` sort by timestamp, newest
first, with a stable sort (V8's `Array.prototype.sort` is stable), then
apply offset/limit via `slice`. -/

/-- Stable insert for a descending-timestamp sort: an element goes in
front of the first element whose timestamp it weakly exceeds, so
elements inserted from the right keep insertion order on ties. -/
def insertDesc (ts : α → Nat) (x : α) : List α → List α
  | [] => [x]
  | y :: ys => if ts y ≤ ts x then x :: y :: ys else y :: insertDesc ts x ys

/-- Stable sort by timestamp, newest first. -/
def sortTsDesc (ts : α → Nat) (l : List α) : List α :=
  l.foldr (insertDesc ts) []

/-- The list-level body of `getOperationsByUser` (filter to the user,
sort newest first, `slice(0, limit)`). -/
def userOpsQuery (ops : List OpRec) (uid : Nat) (limit : Nat) : List OpRec :=
  (sortTsDesc (fun o => o.timestamp) (ops.filter (fun o => o.userId = uid))).take limit

/-- `MemStorage.getOperationsByUser`. -/
def Storage.getOperationsByUser (st : Storage) (uid : Nat) (limit : Nat) : List OpRec :=
  userOpsQuery st.ops uid limit

/-- The equality filters `getAuditLogs` is called with. -/
structure AuditFilter where
  fUserId : Option Nat := none
  fAction : Option AuditAction := none
  fStatus : Option AuditStatus := none

/-- One row against the filters (`Object.entries(filters).every`). -/
def auditMatches (f : AuditFilter) (a : AuditRec) : Bool :=
  (match f.fUserId with | none => true | some u => a.userId = some u) &&
  (match f.fAction with | none => true | some act => a.action = act) &&
  (match f.fStatus with | none => true | some s => a.status = s)

/-- The list-level body of `getAuditLogs` (filter, sort newest first,
`slice(offset, offset + limit)`). -/
def auditLogsQuery (audits : List AuditRec) (f : AuditFilter) (limit offset : Nat) :
    List AuditRec :=
  ((sortTsDesc (fun a => a.timestamp) (audits.filter (auditMatches f))).drop offset).take
    limit

/-- `MemStorage.getAuditLogs`. -/
def Storage.getAuditLogs (st : Storage) (f : AuditFilter) (limit offset : Nat) :
    List AuditRec :=
  auditLogsQuery st.audits f limit offset

/-! ## Anomaly detection (`anomaly-detection.ts`)

The detector functions read only the `operations` and `audit_logs`
tables, so they are defined over those lists; `Storage`-level wrappers
project the fields. -/

/-- `ANOMALY_CONFIG.MAX_OPERATIONS_PER_MINUTE`. -/
def maxOpsPerMinute : Nat := 20

/-- `ANOMALY_CONFIG.TIME_WINDOW_MS`. -/
def timeWindowMs : Nat := 60 * 1000

/-- `ANOMALY_CONFIG.FAILED_OPERATIONS_THRESHOLD` (`0.3`). -/
def failedOpsThreshold : ℚ := 3 / 10

/-- `ANOMALY_CONFIG.REVOKED_KEY_OPERATIONS_THRESHOLD`. -/
def revokedKeyOpsThreshold : Nat := 2

/-- `new Date(ts) >= windowStart` with
`windowStart = now - TIME_WINDOW_MS`. -/
def inWindow (now ts : Nat) : Bool := now - timeWindowMs ≤ ts

/-- Local hour of a timestamp (`getHours`), with the process timezone
taken as UTC. -/
def hourOf (ts : Nat) : Nat := ts / 3600000 % 24

/-- The result record of `detectAnomalies` (the fields the consumers
read; `detected` is `true` whenever the result is non-null). -/
structure Anomaly where
  anomalyType : AnomalyType
  severity : Severity
  userId : Nat
  timestamp : Nat
deriving DecidableEq, Repr

/-- `detectVolumeAnomaly`: more than `MAX_OPERATIONS_PER_MINUTE`
operations in the window. -/
def detectVolumeAnomaly (opsW : List OpRec) : Option Nat :=
  if opsW.length > maxOpsPerMinute then some opsW.length else none

/-- The 20 newest FAILED `DATA_ENCRYPT` audit rows of the user that lie
in the window (the detector queries only `DATA_ENCRYPT`, per the
source comment `// Also check DATA_DECRYPT if needed`). -/
def failedEncryptLogsInWindow (audits : List AuditRec) (uid : Nat) (now : Nat) :
    List AuditRec :=
  (auditLogsQuery audits
      { fUserId := some uid, fAction := some AuditAction.dataEncrypt,
        fStatus := some AuditStatus.failed }
      20 0).filter (fun l => inWindow now l.timestamp)

/-- The user operations (among the 50 newest) that lie in the window. -/
def opsInWindow (ops : List OpRec) (uid : Nat) (now : Nat) : List OpRec :=
  (userOpsQuery ops uid 50).filter (fun o => inWindow now o.timestamp)

/-- `failureRatio`: `0` when the window holds no operations, otherwise
failed-log count over operation count (the float comparison against
`0.3` agrees with the rational one at the list sizes the limits allow). -/
def failureRate (ops : List OpRec) (audits : List AuditRec) (uid : Nat) (now : Nat) : ℚ :=
  let logs := failedEncryptLogsInWindow audits uid now
  let opsW := opsInWindow ops uid now
  if opsW.length > 0 then (logs.length : ℚ) / opsW.length else 0

/-- `detectFailureAnomaly`: returns the `(failed, total)` detail pair on
a hit. -/
def detectFailureAnomaly (ops : List OpRec) (audits : List AuditRec) (uid : Nat)
    (now : Nat) : Option (Nat × Nat) :=
  let logs := failedEncryptLogsInWindow audits uid now
  if logs.length = 0 then none
  else
    if failureRate ops audits uid now ≥ failedOpsThreshold then
      some (logs.length, (opsInWindow ops uid now).length)
    else none

/-- `detectRevokedKeyUsage`: among the 50 newest audit rows, those of
the user in the window whose `details.error` mentions `\'not active\'`. -/
def detectRevokedKeyUsage (audits : List AuditRec) (uid : Nat) (now : Nat) : Option Nat :=
  let logs := (auditLogsQuery audits {} 50 0).filter
    (fun l => inWindow now l.timestamp && l.userId = some uid &&
      detailsHasNotActive l.details)
  if logs.length ≥ revokedKeyOpsThreshold then some logs.length else none

/-- `detectTimeAnomaly`: any windowed operation outside
`[WORKING_HOURS_START, WORKING_HOURS_END)`. -/
def detectTimeAnomaly (opsW : List OpRec) : Option Nat :=
  let outside := opsW.filter (fun o => hourOf o.timestamp < 7 || 22 ≤ hourOf o.timestamp)
  if outside.length > 0 then some outside.length else none

/-- `detectAnomalies`: null when the user has no recent operations;
otherwise the detectors run in the fixed order volume, failure rate,
revoked-key usage, unusual time, and the first hit is returned with its
hardcoded severity. -/
def detectAnomalies (ops : List OpRec) (audits : List AuditRec) (uid : Nat) (now : Nat) :
    Option Anomaly :=
  let recentOps := userOpsQuery ops uid 50
  if recentOps.length = 0 then none
  else
    let opsW := recentOps.filter (fun o => inWindow now o.timestamp)
    match detectVolumeAnomaly opsW with
    | some _ => some ⟨.highVolume, .medium, uid, now⟩
    | none =>
      match detectFailureAnomaly ops audits uid now with
      | some _ => some ⟨.highFailureRate, .high, uid, now⟩
      | none =>
        match detectRevokedKeyUsage audits uid now with
        | some _ => some ⟨.revokedKeyUsage, .high, uid, now⟩
        | none =>
          match detectTimeAnomaly opsW with
          | some _ => some ⟨.unusualTime, .low, uid, now⟩
          | none => none

/-- `recordAnomaly`: one `ANOMALY_DETECTED / WARNING` audit row whose
`resource` is the anomaly type. -/
def recordAnomaly (st : Storage) (a : Anomaly) (now : Nat) : Storage :=
  st.recordAuditLog
    { userId := some a.userId, action := .anomalyDetected,
      resource := some (.rAnomaly a.anomalyType), status := .warning,
      details := .dAnomaly a.anomalyType a.severity } now

/-- The `detectAnomalies(userId).then(...)` tail of the engine
operations: analyse, and record the anomaly when one is detected. -/
def runAnomaly (st : Storage) (uid : Nat) (now : Nat) : Storage :=
  match detectAnomalies st.ops st.audits uid now with
  | some a => recordAnomaly st a now
  | none => st


/-! ## The crypto engine (`encryption.ts`) -/

/-- Process-wide configuration: the master key (`MASTER_KEY`, 32 bytes
once hex-decoded). -/
structure Config where
  masterKey : Seg
deriving Repr

/-- The `'success'` status string of an operation row. -/
def sSuccess : Seg := [115]

/-- The `'1.0'` backup version string. -/
def backupVersion : Seg := [1, 0]

/-- `getDecryptedKey`: fetch, require `status === 'active'`, unwrap the
key material under the master key, parse it, and touch `lastUsed`
(which also rewrites `updatedAt`, as `updateKey` always does). -/
def getDecryptedKey (cfg : Config) (st : Storage) (keyRef : Nat) (now : Nat) :
    Except ErrMsg Payload × Storage :=
  match st.getKey keyRef with
  | none => (.error .keyNotFound, st)
  | some key =>
    if key.status ≠ .active then (.error (.keyNotActive key.status), st)
    else
      match decryptAES key.keyData cfg.masterKey key.iv with
      | .error e => (.error e, st)
      | .ok bytes =>
        match decodePayload bytes with
        | none => (.error .badPayload, st)
        | some payload => (.ok payload, (st.updateKey keyRef (.setLastUsed now) now).2)

/-- The `switch (key.algorithm)` of `encryptData`.  `iv` is the fresh
16-byte IV drawn for the AES and ECC branches; `eph` the fresh
ephemeral ECDH scalar.  A payload without the field a branch reads
(`keyData.key` / `keyData.publicKey`) makes the primitive throw. -/
def dispatchEncrypt (alg : Algorithm) (payload : Payload) (data : Seg)
    (iv : Seg) (eph : Nat) : Except ErrMsg (List Seg) :=
  match alg with
  | .aes256 | .aes128 =>
    match payload with
    | .aes k => (encryptAES data k iv).map (fun ct => [iv, ct])
    | _ => .error .badPayload
  | .rsa2048 =>
    match payload with
    | .asym pub _ => (encryptRSA data pub).map (fun ct => [ct])
    | _ => .error .badPayload
  | .eccP256 =>
    match payload with
    | .asym pub _ => encryptWithECC data pub iv eph
    | _ => .error .badPayload

/-- The `switch (key.algorithm)` of `decryptData`.  The AES branch
destructures `encryptedData.split(':')` into its first two segments and
ignores any further ones; with fewer than two segments the second is
`undefined` and `decipher.update` throws.  The RSA branch hex-decodes
the whole string, which stops at the first `':'`, so exactly the first
segment reaches `privateDecrypt`. -/
def dispatchDecrypt (alg : Algorithm) (payload : Payload) (env : List Seg) :
    Except ErrMsg Seg :=
  match alg with
  | .aes256 | .aes128 =>
    match payload with
    | .aes k =>
      match env with
      | ivSeg :: ct :: _ => decryptAES ct k ivSeg
      | _ => .error .badEnvelope
    | _ => .error .badPayload
  | .rsa2048 =>
    match payload with
    | .asym _ priv => decryptRSA env.headI priv
    | _ => .error .badPayload
  | .eccP256 =>
    match payload with
    | .asym _ priv => decryptWithECC env priv
    | _ => .error .badPayload

/-- The shared `catch` tail of `encryptData`/`decryptData`: one FAILED
audit row with `details.error`, anomaly analysis, and the error is
re-thrown to the caller. -/
def opFailTail (st : Storage) (uid : Nat) (action : AuditAction) (res : Seg)
    (e : ErrMsg) (now : Nat) : Except ErrMsg α × Storage :=
  let st1 := st.recordAuditLog
    { userId := some uid, action := action, resource := some (.rStr res),
      status := .failed, details := .dErr e } now
  (.error e, runAnomaly st1 uid now)

/-- `encryptData`: resolve the key, unwrap it, dispatch per algorithm,
then record one success operation row, one `DATA_ENCRYPT / SUCCESS`
audit row, and run anomaly analysis.  On any failure the catch tail
applies instead. -/
def encryptData (cfg : Config) (st : Storage) (uid : Nat) (data : Seg) (keyRef : Nat)
    (res : Seg) (iv : Seg) (eph : Nat) (now : Nat) : Except ErrMsg (List Seg) × Storage :=
  match st.getKey keyRef with
  | none => opFailTail st uid .dataEncrypt res .keyNotFound now
  | some key =>
    match getDecryptedKey cfg st keyRef now with
    | (.error e, st1) => opFailTail st1 uid .dataEncrypt res e now
    | (.ok payload, st1) =>
      match dispatchEncrypt key.algorithm payload data iv eph with
      | .error e => opFailTail st1 uid .dataEncrypt res e now
      | .ok env =>
        let st2 := st1.recordOperation uid (some key.id) .encryptOp key.algorithm
          (some res) sSuccess now
        let st3 := st2.recordAuditLog
          { userId := some uid, action := .dataEncrypt, resource := some (.rStr res),
            status := .success, details := .dAlgoKey key.algorithm key.keyId } now
        (.ok env, runAnomaly st3 uid now)

/-- `decryptData`: mirror of `encryptData` over the decrypt dispatch. -/
def decryptData (cfg : Config) (st : Storage) (uid : Nat) (env : List Seg) (keyRef : Nat)
    (res : Seg) (now : Nat) : Except ErrMsg Seg × Storage :=
  match st.getKey keyRef with
  | none => opFailTail st uid .dataDecrypt res .keyNotFound now
  | some key =>
    match getDecryptedKey cfg st keyRef now with
    | (.error e, st1) => opFailTail st1 uid .dataDecrypt res e now
    | (.ok payload, st1) =>
      match dispatchDecrypt key.algorithm payload env with
      | .error e => opFailTail st1 uid .dataDecrypt res e now
      | .ok data =>
        let st2 := st1.recordOperation uid (some key.id) .decryptOp key.algorithm
          (some res) sSuccess now
        let st3 := st2.recordAuditLog
          { userId := some uid, action := .dataDecrypt, resource := some (.rStr res),
            status := .success, details := .dAlgoKey key.algorithm key.keyId } now
        (.ok data, runAnomaly st3 uid now)

/-- `revokeKey`: no ownership or status check; set `status: 'revoked'`
and write one `KEY_REVOKE / SUCCESS` audit row.  A missing key throws
before any audit write. -/
def revokeKey (st : Storage) (uid : Nat) (keyRef : Nat) (now : Nat) :
    Except ErrMsg Unit × Storage :=
  match st.getKey keyRef with
  | none => (.error .keyNotFound, st)
  | some key =>
    let st1 := (st.updateKey keyRef (.setStatus .revoked) now).2
    let st2 := st1.recordAuditLog
      { userId := some uid, action := .keyRevoke, resource := some (.rStr key.keyId),
        status := .success, details := .dKeyName key.name } now
    (.ok (), st2)

/-- The algorithm-specific fresh key material of `generateKey`
(`fresh` is the `randomBytes(16|32)` AES key, `seed` the generated
RSA/ECC pair). -/
def genPayload (alg : Algorithm) (fresh : Seg) (seed : Nat) : Payload :=
  match alg with
  | .aes256 => .aes fresh
  | .aes128 => .aes fresh
  | .rsa2048 => .asym seed seed
  | .eccP256 => .asym seed seed

/-- `generateKey`: build the algorithm-specific payload, wrap it under
the master key with a fresh `wrapIv`, and persist.  No audit row is
written. -/
def generateKey (cfg : Config) (st : Storage) (uid : Nat) (name : Seg) (alg : Algorithm)
    (fresh : Seg) (seed : Nat) (pubId : Seg) (wrapIv : Seg) (now : Nat) :
    Except ErrMsg KeyRec × Storage :=
  match encryptAES (encodePayload (genPayload alg fresh seed)) cfg.masterKey wrapIv with
  | .error e => (.error e, st)
  | .ok ct =>
    let (row, st1) := st.createKey
      { name := name, userId := uid, keyId := pubId, algorithm := alg, keyData := ct,
        iv := wrapIv, status := .active, expiresAt := none } now
    (.ok row, st1)

/-- The backup entry recorded for a key. -/
def entryOfKey (k : KeyRec) : BEntry :=
  ⟨k.keyId, k.name, k.algorithm, k.status, k.createdAt, k.keyData, k.iv⟩

/-- `generateKeyBackup`: collect the owner's keys (error when there are
none, thrown before any audit write), wrap the serialized document
under the master key with a fresh IV, emit `iv:ciphertext`, and write
one `KEY_BACKUP / SUCCESS` audit row. -/
def generateKeyBackup (cfg : Config) (st : Storage) (uid : Nat) (iv : Seg) (now : Nat) :
    Except ErrMsg (List Seg) × Storage :=
  let keys := st.getUserKeys uid
  if keys.length = 0 then (.error .noKeysForBackup, st)
  else
    let doc : BackupDoc := ⟨backupVersion, now, keys.map entryOfKey⟩
    match encryptAES (encodeDoc doc) cfg.masterKey iv with
    | .error e => (.error e, st)
    | .ok ct =>
      let st1 := st.recordAuditLog
        { userId := some uid, action := .keyBackup, resource := some .rBackupLit,
          status := .success, details := .dKeyCount keys.length } now
      (.ok [iv, ct], st1)

/-- The restore loop: for each entry whose `keyId` is absent, insert a
new record owned by the importer preserving `keyId`, `name`,
`algorithm`, `status`, `keyData` and `iv`; count the insertions. -/
def restoreEntries (uid : Nat) (now : Nat) : Storage → List BEntry → Nat × Storage
  | st, [] => (0, st)
  | st, e :: es =>
    match st.getKeyByKeyId e.keyId with
    | some _ => restoreEntries uid now st es
    | none =>
      let st1 := (st.createKey
        { name := e.name, userId := uid, keyId := e.keyId, algorithm := e.algorithm,
          keyData := e.keyData, iv := e.iv, status := e.status, expiresAt := none }
        now).2
      let (c, st2) := restoreEntries uid now st1 es
      (c + 1, st2)

/-- The `catch` tail of `restoreKeyBackup`: one `KEY_RESTORE / FAILED`
audit row and the error is re-thrown. -/
def restoreFailTail (st : Storage) (uid : Nat) (e : ErrMsg) (now : Nat) :
    Except ErrMsg Nat × Storage :=
  let st1 := st.recordAuditLog
    { userId := some uid, action := .keyRestore, resource := some .rBackupLit,
      status := .failed, details := .dErr e } now
  (.error e, st1)

/-- `restoreKeyBackup`: split the artifact (JS destructuring takes the
first two segments), unwrap under the master key, parse, run the
restore loop, and write one `KEY_RESTORE / SUCCESS` audit row with the
restored count. -/
def restoreKeyBackup (cfg : Config) (st : Storage) (uid : Nat) (artifact : List Seg)
    (now : Nat) : Except ErrMsg Nat × Storage :=
  match artifact with
  | ivSeg :: ctSeg :: _ =>
    match decryptAES ctSeg cfg.masterKey ivSeg with
    | .error e => restoreFailTail st uid e now
    | .ok bytes =>
      match decodeDoc bytes with
      | none => restoreFailTail st uid .badBackupFormat now
      | some doc =>
        let (count, st1) := restoreEntries uid now st doc.keys
        let st2 := st1.recordAuditLog
          { userId := some uid, action := .keyRestore, resource := some .rBackupLit,
            status := .success, details := .dRestored count } now
        (.ok count, st2)
  | _ => restoreFailTail st uid .badEnvelope now

/-! ## The public operations as a step relation

Each route-reachable core operation, with its entropy and clock inputs
made explicit, so properties over arbitrary interleavings can be stated
as invariants of command sequences. -/

/-- One invocation of a public core operation. -/
inductive Cmd where
  | cGen (uid : Nat) (name : Seg) (alg : Algorithm) (fresh : Seg) (seed : Nat)
      (pubId : Seg) (wrapIv : Seg)
  | cEncrypt (uid : Nat) (data : Seg) (keyRef : Nat) (res : Seg) (iv : Seg) (eph : Nat)
  | cDecrypt (uid : Nat) (env : List Seg) (keyRef : Nat) (res : Seg)
  | cRevoke (uid : Nat) (keyRef : Nat)
  | cBackup (uid : Nat) (iv : Seg)
  | cRestore (uid : Nat) (artifact : List Seg)

/-- The state effect of one public operation. -/
def step (cfg : Config) (st : Storage) : Cmd → Nat → Storage
  | .cGen uid name alg fresh seed pubId wrapIv, now =>
    (generateKey cfg st uid name alg fresh seed pubId wrapIv now).2
  | .cEncrypt uid data keyRef res iv eph, now =>
    (encryptData cfg st uid data keyRef res iv eph now).2
  | .cDecrypt uid env keyRef res, now =>
    (decryptData cfg st uid env keyRef res now).2
  | .cRevoke uid keyRef, now => (revokeKey st uid keyRef now).2
  | .cBackup uid iv, now => (generateKeyBackup cfg st uid iv now).2
  | .cRestore uid artifact, now => (restoreKeyBackup cfg st uid artifact now).2

/-- Run a sequence of public operations, each with its own clock. -/
def runCmds (cfg : Config) : Storage → List (Cmd × Nat) → Storage
  | st, [] => st
  | st, (c, now) :: rest => runCmds cfg (step cfg st c now) rest

/-! ## Frame lemmas for the storage primitives -/

theorem audits_createKey (st : Storage) (k : InsertKey) (now : Nat) :
    (st.createKey k now).2.audits = st.audits := rfl

theorem audits_updateKey (st : Storage) (i : Nat) (p : KeyPatch) (now : Nat) :
    (st.updateKey i p now).2.audits = st.audits := by
  unfold Storage.updateKey
  cases findKey st.keys i <;> rfl

theorem audits_recordOperation (st : Storage) (uid : Nat) (keyRef : Option Nat)
    (op : OpKind) (alg : Algorithm) (res : Option Seg) (status : Seg) (now : Nat) :
    (st.recordOperation uid keyRef op alg res status now).audits = st.audits := rfl

theorem ops_createKey (st : Storage) (k : InsertKey) (now : Nat) :
    (st.createKey k now).2.ops = st.ops := rfl

theorem ops_updateKey (st : Storage) (i : Nat) (p : KeyPatch) (now : Nat) :
    (st.updateKey i p now).2.ops = st.ops := by
  unfold Storage.updateKey
  cases findKey st.keys i <;> rfl

theorem ops_recordAuditLog (st : Storage) (a : InsertAudit) (now : Nat) :
    (st.recordAuditLog a now).ops = st.ops := rfl

theorem keys_recordAuditLog (st : Storage) (a : InsertAudit) (now : Nat) :
    (st.recordAuditLog a now).keys = st.keys := rfl

theorem keys_recordOperation (st : Storage) (uid : Nat) (keyRef : Option Nat)
    (op : OpKind) (alg : Algorithm) (res : Option Seg) (status : Seg) (now : Nat) :
    (st.recordOperation uid keyRef op alg res status now).keys = st.keys := rfl

theorem keys_runAnomaly (st : Storage) (uid now : Nat) :
    (runAnomaly st uid now).keys = st.keys := by
  unfold runAnomaly
  cases detectAnomalies st.ops st.audits uid now <;> rfl

theorem ops_runAnomaly (st : Storage) (uid now : Nat) :
    (runAnomaly st uid now).ops = st.ops := by
  unfold runAnomaly
  cases detectAnomalies st.ops st.audits uid now <;> rfl

/-- The state `getDecryptedKey` leaves behind never touches `ops` or
`audits` (its only write is the `lastUsed` touch). -/
theorem audits_getDecryptedKey (cfg : Config) (st : Storage) (keyRef now : Nat) :
    (getDecryptedKey cfg st keyRef now).2.audits = st.audits := by
  unfold getDecryptedKey
  cases h : st.getKey keyRef with
  | none => rfl
  | some key =>
    by_cases hs : key.status ≠ KeyStatus.active
    · simp [hs]
    · simp only [hs, if_false]
      cases decryptAES key.keyData cfg.masterKey key.iv with
      | error e => rfl
      | ok bytes =>
        dsimp only
        cases decodePayload bytes with
        | none => rfl
        | some payload => simpa using audits_updateKey st keyRef (.setLastUsed now) now

theorem ops_getDecryptedKey (cfg : Config) (st : Storage) (keyRef now : Nat) :
    (getDecryptedKey cfg st keyRef now).2.ops = st.ops := by
  unfold getDecryptedKey
  cases h : st.getKey keyRef with
  | none => rfl
  | some key =>
    by_cases hs : key.status ≠ KeyStatus.active
    · simp [hs]
    · simp only [hs, if_false]
      cases decryptAES key.keyData cfg.masterKey key.iv with
      | error e => rfl
      | ok bytes =>
        dsimp only
        cases decodePayload bytes with
        | none => rfl
        | some payload => simpa using ops_updateKey st keyRef (.setLastUsed now) now

/-! ## Lookup and replacement lemmas -/

theorem findKey_cons (x : KeyRec) (xs : List KeyRec) (k : Nat) :
    findKey (x :: xs) k = if x.id = k then some x else findKey xs k := rfl

theorem replaceKey_cons (x : KeyRec) (xs : List KeyRec) (i : Nat) (nr : KeyRec) :
    replaceKey (x :: xs) i nr = if x.id = i then nr :: xs else x :: replaceKey xs i nr := by
  by_cases hx : x.id = i <;> simp [replaceKey, hx]

theorem findKey_id {l : List KeyRec} {k : Nat} {r : KeyRec}
    (h : findKey l k = some r) : r.id = k := by
  induction l with
  | nil => simp [findKey] at h
  | cons x xs ih =>
    rw [findKey_cons] at h
    by_cases hx : x.id = k
    · rw [if_pos hx] at h
      exact (Option.some.inj h) ▸ hx
    · rw [if_neg hx] at h
      exact ih h

theorem findKey_append_of_found {l l2 : List KeyRec} {k : Nat} {r : KeyRec}
    (h : findKey l k = some r) : findKey (l ++ l2) k = some r := by
  induction l with
  | nil => simp [findKey] at h
  | cons x xs ih =>
    rw [findKey_cons] at h
    rw [List.cons_append, findKey_cons]
    by_cases hx : x.id = k
    · rw [if_pos hx] at h ⊢
      exact h
    · rw [if_neg hx] at h ⊢
      exact ih h

theorem findKey_replaceKey_eq {l : List KeyRec} {i : Nat} {nr r : KeyRec}
    (hnr : nr.id = i) (h : findKey l i = some r) :
    findKey (replaceKey l i nr) i = some nr := by
  induction l with
  | nil => simp [findKey] at h
  | cons x xs ih =>
    rw [findKey_cons] at h
    rw [replaceKey_cons]
    by_cases hx : x.id = i
    · rw [if_pos hx, findKey_cons, if_pos hnr]
    · rw [if_neg hx] at h
      rw [if_neg hx, findKey_cons, if_neg hx]
      exact ih h

theorem findKey_replaceKey_ne {l : List KeyRec} {i k : Nat} {nr : KeyRec}
    (hnr : nr.id = i) (hk : k ≠ i) :
    findKey (replaceKey l i nr) k = findKey l k := by
  induction l with
  | nil => simp [replaceKey, findKey]
  | cons x xs ih =>
    rw [replaceKey_cons, findKey_cons]
    by_cases hx : x.id = i
    · have h1 : ¬ nr.id = k := by rw [hnr]; exact Ne.symm hk
      have h2 : ¬ x.id = k := by rw [hx]; exact Ne.symm hk
      rw [if_pos hx, findKey_cons, if_neg h1, if_neg h2]
    · rw [if_neg hx, findKey_cons]
      by_cases hxk : x.id = k
      · rw [if_pos hxk, if_pos hxk]
      · rw [if_neg hxk, if_neg hxk]
        exact ih

theorem applyPatch_id (r : KeyRec) (p : KeyPatch) (now : Nat) :
    (applyPatch r p now).id = r.id := by
  cases p <;> rfl

/-! ## The revocation invariant (claim C3 machinery)

`revokedAt st k` survives every public operation: no code path ever
writes a status other than `'revoked'` to an existing record, and new
records get fresh ids appended after existing ones. -/

/-- Key `k` exists and its status is `'revoked'`. -/
def revokedAt (st : Storage) (k : Nat) : Prop :=
  ∃ r, st.getKey k = some r ∧ r.status = KeyStatus.revoked

theorem revokedAt_createKey {st : Storage} {k : Nat} (ik : InsertKey) (now : Nat)
    (h : revokedAt st k) : revokedAt (st.createKey ik now).2 k := by
  obtain ⟨r, hr, hs⟩ := h
  exact ⟨r, findKey_append_of_found hr, hs⟩

/-- The two patch shapes the source uses never turn a revoked record
active again. -/
theorem revokedAt_updateKey {st : Storage} {k : Nat} (i : Nat) (p : KeyPatch) (now : Nat)
    (hp : (∃ t, p = .setLastUsed t) ∨ p = .setStatus .revoked)
    (h : revokedAt st k) : revokedAt (st.updateKey i p now).2 k := by
  obtain ⟨r, hr, hs⟩ := h
  unfold Storage.getKey at hr
  unfold Storage.updateKey
  cases hf : findKey st.keys i with
  | none => exact ⟨r, hr, hs⟩
  | some r0 =>
    have hid : (applyPatch r0 p now).id = i := by
      rw [applyPatch_id]; exact findKey_id hf
    by_cases hk : k = i
    · subst hk
      have hr0 : r0 = r := Option.some.inj (hf.symm.trans hr)
      subst hr0
      refine ⟨applyPatch r0 p now, ?_, ?_⟩
      · show findKey (replaceKey st.keys k (applyPatch r0 p now)) k = _
        exact findKey_replaceKey_eq hid hf
      · rcases hp with ⟨t, hp⟩ | hp <;> subst hp <;> simp [applyPatch, hs]
    · refine ⟨r, ?_, hs⟩
      show findKey (replaceKey st.keys i (applyPatch r0 p now)) k = some r
      rw [findKey_replaceKey_ne hid hk]
      exact hr

theorem revokedAt_of_keys_eq {st st' : Storage} {k : Nat} (hk : st'.keys = st.keys)
    (h : revokedAt st k) : revokedAt st' k := by
  obtain ⟨r, hr, hs⟩ := h
  refine ⟨r, ?_, hs⟩
  unfold Storage.getKey at hr ⊢
  rw [hk]
  exact hr

theorem revokedAt_recordAuditLog {st : Storage} {k : Nat} (a : InsertAudit) (now : Nat)
    (h : revokedAt st k) : revokedAt (st.recordAuditLog a now) k :=
  revokedAt_of_keys_eq (keys_recordAuditLog st a now) h

theorem revokedAt_runAnomaly {st : Storage} {k : Nat} (uid now : Nat)
    (h : revokedAt st k) : revokedAt (runAnomaly st uid now) k :=
  revokedAt_of_keys_eq (keys_runAnomaly st uid now) h

theorem revokedAt_getDecryptedKey {st : Storage} {k : Nat} (cfg : Config)
    (keyRef now : Nat) (h : revokedAt st k) :
    revokedAt (getDecryptedKey cfg st keyRef now).2 k := by
  unfold getDecryptedKey
  cases st.getKey keyRef with
  | none => exact h
  | some key =>
    by_cases hs : key.status ≠ KeyStatus.active
    · simp only [if_pos hs]; exact h
    · simp only [hs, if_false]
      cases decryptAES key.keyData cfg.masterKey key.iv with
      | error e => exact h
      | ok bytes =>
        dsimp only
        cases decodePayload bytes with
        | none => exact h
        | some payload =>
          exact revokedAt_updateKey keyRef _ now (Or.inl ⟨now, rfl⟩) h

theorem revokedAt_opFailTail {α : Type} {st : Storage} {k : Nat} (uid : Nat)
    (act : AuditAction) (res : Seg) (e : ErrMsg) (now : Nat) (h : revokedAt st k) :
    revokedAt (opFailTail st uid act res e now (α := α)).2 k := by
  unfold opFailTail
  exact revokedAt_runAnomaly _ _ (revokedAt_recordAuditLog _ _ h)

theorem revokedAt_encryptData {st : Storage} {k : Nat} (cfg : Config) (uid : Nat)
    (data : Seg) (keyRef : Nat) (res : Seg) (iv : Seg) (eph : Nat) (now : Nat)
    (h : revokedAt st k) :
    revokedAt (encryptData cfg st uid data keyRef res iv eph now).2 k := by
  unfold encryptData
  cases st.getKey keyRef with
  | none => exact revokedAt_opFailTail _ _ _ _ _ h
  | some key =>
    have hgd := revokedAt_getDecryptedKey cfg keyRef now h
    cases hq : getDecryptedKey cfg st keyRef now with
    | mk pr pst =>
      rw [hq] at hgd
      dsimp only
      cases pr with
      | error e => exact revokedAt_opFailTail _ _ _ _ _ hgd
      | ok payload =>
        dsimp only
        cases dispatchEncrypt key.algorithm payload data iv eph with
        | error e => exact revokedAt_opFailTail _ _ _ _ _ hgd
        | ok env =>
          exact revokedAt_runAnomaly _ _ (revokedAt_recordAuditLog _ _
            (revokedAt_of_keys_eq (keys_recordOperation _ _ _ _ _ _ _ _) hgd))

theorem revokedAt_decryptData {st : Storage} {k : Nat} (cfg : Config) (uid : Nat)
    (env : List Seg) (keyRef : Nat) (res : Seg) (now : Nat)
    (h : revokedAt st k) :
    revokedAt (decryptData cfg st uid env keyRef res now).2 k := by
  unfold decryptData
  cases st.getKey keyRef with
  | none => exact revokedAt_opFailTail _ _ _ _ _ h
  | some key =>
    have hgd := revokedAt_getDecryptedKey cfg keyRef now h
    cases hq : getDecryptedKey cfg st keyRef now with
    | mk pr pst =>
      rw [hq] at hgd
      dsimp only
      cases pr with
      | error e => exact revokedAt_opFailTail _ _ _ _ _ hgd
      | ok payload =>
        dsimp only
        cases dispatchDecrypt key.algorithm payload env with
        | error e => exact revokedAt_opFailTail _ _ _ _ _ hgd
        | ok data =>
          exact revokedAt_runAnomaly _ _ (revokedAt_recordAuditLog _ _
            (revokedAt_of_keys_eq (keys_recordOperation _ _ _ _ _ _ _ _) hgd))

theorem revokedAt_revokeKey {st : Storage} {k : Nat} (uid keyRef now : Nat)
    (h : revokedAt st k) : revokedAt (revokeKey st uid keyRef now).2 k := by
  unfold revokeKey
  cases st.getKey keyRef with
  | none => exact h
  | some key =>
    exact revokedAt_recordAuditLog _ _
      (revokedAt_updateKey keyRef _ now (Or.inr rfl) h)

theorem revokedAt_generateKey {st : Storage} {k : Nat} (cfg : Config) (uid : Nat)
    (name : Seg) (alg : Algorithm) (fresh : Seg) (seed : Nat) (pubId : Seg)
    (wrapIv : Seg) (now : Nat) (h : revokedAt st k) :
    revokedAt (generateKey cfg st uid name alg fresh seed pubId wrapIv now).2 k := by
  unfold generateKey
  cases encryptAES (encodePayload (genPayload alg fresh seed)) cfg.masterKey wrapIv with
  | error e => exact h
  | ok ct =>
    dsimp only
    exact revokedAt_createKey _ _ h

theorem revokedAt_generateKeyBackup {st : Storage} {k : Nat} (cfg : Config)
    (uid : Nat) (iv : Seg) (now : Nat) (h : revokedAt st k) :
    revokedAt (generateKeyBackup cfg st uid iv now).2 k := by
  unfold generateKeyBackup
  by_cases hn : (st.getUserKeys uid).length = 0
  · simp only [hn, if_pos rfl]; exact h
  · simp only [hn, if_false]
    cases encryptAES _ cfg.masterKey iv with
    | error e => exact h
    | ok ct => exact revokedAt_recordAuditLog _ _ h

theorem revokedAt_restoreEntries {st : Storage} {k : Nat} (uid now : Nat)
    (entries : List BEntry) (h : revokedAt st k) :
    revokedAt (restoreEntries uid now st entries).2 k := by
  induction entries generalizing st with
  | nil => exact h
  | cons e es ih =>
    unfold restoreEntries
    cases st.getKeyByKeyId e.keyId with
    | some _ => exact ih h
    | none =>
      dsimp only
      exact ih (revokedAt_createKey _ now h)

theorem revokedAt_restoreFailTail {st : Storage} {k : Nat} (uid : Nat) (e : ErrMsg)
    (now : Nat) (h : revokedAt st k) :
    revokedAt (restoreFailTail st uid e now).2 k := by
  unfold restoreFailTail
  exact revokedAt_recordAuditLog _ _ h

theorem revokedAt_restoreKeyBackup {st : Storage} {k : Nat} (cfg : Config) (uid : Nat)
    (artifact : List Seg) (now : Nat) (h : revokedAt st k) :
    revokedAt (restoreKeyBackup cfg st uid artifact now).2 k := by
  unfold restoreKeyBackup
  match artifact with
  | [] => exact revokedAt_restoreFailTail _ _ _ h
  | [ivSeg] => exact revokedAt_restoreFailTail _ _ _ h
  | ivSeg :: ctSeg :: rest =>
    dsimp only
    cases decryptAES ctSeg cfg.masterKey ivSeg with
    | error e => exact revokedAt_restoreFailTail _ _ _ h
    | ok bytes =>
      dsimp only
      cases decodeDoc bytes with
      | none => exact revokedAt_restoreFailTail _ _ _ h
      | some doc =>
        dsimp only
        cases hp : restoreEntries uid now st doc.keys with
        | mk c st1 =>
          have := revokedAt_restoreEntries uid now doc.keys h
          rw [hp] at this
          exact revokedAt_recordAuditLog _ _ this

/-- No public operation ever reactivates a revoked key. -/
theorem revokedAt_step {st : Storage} {k : Nat} (cfg : Config) (cmd : Cmd) (now : Nat)
    (h : revokedAt st k) : revokedAt (step cfg st cmd now) k := by
  cases cmd with
  | cGen uid name alg fresh seed pubId wrapIv =>
    exact revokedAt_generateKey cfg uid name alg fresh seed pubId wrapIv now h
  | cEncrypt uid data keyRef res iv eph =>
    exact revokedAt_encryptData cfg uid data keyRef res iv eph now h
  | cDecrypt uid env keyRef res => exact revokedAt_decryptData cfg uid env keyRef res now h
  | cRevoke uid keyRef => exact revokedAt_revokeKey uid keyRef now h
  | cBackup uid iv => exact revokedAt_generateKeyBackup cfg uid iv now h
  | cRestore uid artifact => exact revokedAt_restoreKeyBackup cfg uid artifact now h

/-- The invariant survives arbitrary command sequences. -/
theorem revokedAt_runCmds {st : Storage} {k : Nat} (cfg : Config)
    (cmds : List (Cmd × Nat)) (h : revokedAt st k) :
    revokedAt (runCmds cfg st cmds) k := by
  induction cmds generalizing st with
  | nil => exact h
  | cons c rest ih =>
    cases c with
    | mk cmd now => exact ih (revokedAt_step cfg cmd now h)

/-! ## Audit-log invariants (claim C9 machinery)

Every write to `audit_logs` goes through `recordAuditLog`, which stamps
the strictly increasing counter and appends; nothing ever deletes or
mutates an audit row. -/

/-- Audit ids are bounded by the counter and strictly increase along
the append order. -/
structure AuditWF (st : Storage) : Prop where
  bound : ∀ a ∈ st.audits, a.id < st.auditCtr
  mono : st.audits.Pairwise (fun a b => a.id < b.id)

/-- One state extends another by appending audit rows, preserving
well-formedness. -/
def AuditExt (st st' : Storage) : Prop :=
  (∃ tail, st'.audits = st.audits ++ tail) ∧ (AuditWF st → AuditWF st')

theorem auditExt_refl (st : Storage) : AuditExt st st :=
  ⟨⟨[], by simp⟩, id⟩

theorem auditExt_trans {s1 s2 s3 : Storage} (h1 : AuditExt s1 s2) (h2 : AuditExt s2 s3) :
    AuditExt s1 s3 := by
  obtain ⟨⟨t1, ht1⟩, hw1⟩ := h1
  obtain ⟨⟨t2, ht2⟩, hw2⟩ := h2
  exact ⟨⟨t1 ++ t2, by rw [ht2, ht1, List.append_assoc]⟩, fun w => hw2 (hw1 w)⟩

theorem auditExt_of_eq {st st' : Storage} (h1 : st'.audits = st.audits)
    (h2 : st'.auditCtr = st.auditCtr) : AuditExt st st' := by
  refine ⟨⟨[], by simp [h1]⟩, fun w => ⟨?_, ?_⟩⟩
  · rw [h1, h2]; exact w.bound
  · rw [h1]; exact w.mono

theorem auditExt_recordAuditLog (st : Storage) (a : InsertAudit) (now : Nat) :
    AuditExt st (st.recordAuditLog a now) := by
  unfold Storage.recordAuditLog
  dsimp only
  refine ⟨⟨_, rfl⟩, fun w => ⟨?_, ?_⟩⟩
  · intro x hx
    rcases List.mem_append.1 hx with hx | hx
    · exact Nat.lt_trans (w.bound x hx) (Nat.lt_succ_self _)
    · rw [List.mem_singleton.1 hx]
      exact Nat.lt_succ_self _
  · rw [List.pairwise_append]
    refine ⟨w.mono, List.pairwise_singleton _ _, ?_⟩
    intro x hx y hy
    rw [List.mem_singleton.1 hy]
    exact w.bound x hx

theorem auditCtr_createKey (st : Storage) (k : InsertKey) (now : Nat) :
    (st.createKey k now).2.auditCtr = st.auditCtr := rfl

theorem auditCtr_updateKey (st : Storage) (i : Nat) (p : KeyPatch) (now : Nat) :
    (st.updateKey i p now).2.auditCtr = st.auditCtr := by
  unfold Storage.updateKey
  cases findKey st.keys i <;> rfl

theorem auditCtr_recordOperation (st : Storage) (uid : Nat) (keyRef : Option Nat)
    (op : OpKind) (alg : Algorithm) (res : Option Seg) (status : Seg) (now : Nat) :
    (st.recordOperation uid keyRef op alg res status now).auditCtr = st.auditCtr := rfl

theorem auditCtr_getDecryptedKey (cfg : Config) (st : Storage) (keyRef now : Nat) :
    (getDecryptedKey cfg st keyRef now).2.auditCtr = st.auditCtr := by
  unfold getDecryptedKey
  cases st.getKey keyRef with
  | none => rfl
  | some key =>
    by_cases hs : key.status ≠ KeyStatus.active
    · simp [hs]
    · simp only [hs, if_false]
      cases decryptAES key.keyData cfg.masterKey key.iv with
      | error e => rfl
      | ok bytes =>
        dsimp only
        cases decodePayload bytes with
        | none => rfl
        | some payload => simpa using auditCtr_updateKey st keyRef (.setLastUsed now) now

theorem auditExt_getDecryptedKey (cfg : Config) (st : Storage) (keyRef now : Nat) :
    AuditExt st (getDecryptedKey cfg st keyRef now).2 :=
  auditExt_of_eq (audits_getDecryptedKey cfg st keyRef now)
    (auditCtr_getDecryptedKey cfg st keyRef now)

theorem auditExt_runAnomaly (st : Storage) (uid now : Nat) :
    AuditExt st (runAnomaly st uid now) := by
  unfold runAnomaly
  cases detectAnomalies st.ops st.audits uid now with
  | none => exact auditExt_refl st
  | some a => exact auditExt_recordAuditLog st _ now

theorem auditExt_opFailTail {α : Type} (st : Storage) (uid : Nat) (act : AuditAction)
    (res : Seg) (e : ErrMsg) (now : Nat) :
    AuditExt st (opFailTail st uid act res e now (α := α)).2 := by
  unfold opFailTail
  exact auditExt_trans (auditExt_recordAuditLog st _ now) (auditExt_runAnomaly _ uid now)

theorem auditExt_encryptData (cfg : Config) (st : Storage) (uid : Nat) (data : Seg)
    (keyRef : Nat) (res : Seg) (iv : Seg) (eph : Nat) (now : Nat) :
    AuditExt st (encryptData cfg st uid data keyRef res iv eph now).2 := by
  unfold encryptData
  cases st.getKey keyRef with
  | none => exact auditExt_opFailTail st uid _ res _ now
  | some key =>
    have hgd := auditExt_getDecryptedKey cfg st keyRef now
    cases hq : getDecryptedKey cfg st keyRef now with
    | mk pr pst =>
      rw [hq] at hgd
      dsimp only
      cases pr with
      | error e => exact auditExt_trans hgd (auditExt_opFailTail pst uid _ res _ now)
      | ok payload =>
        dsimp only
        cases dispatchEncrypt key.algorithm payload data iv eph with
        | error e => exact auditExt_trans hgd (auditExt_opFailTail pst uid _ res _ now)
        | ok env =>
          exact auditExt_trans hgd (auditExt_trans
            (auditExt_of_eq (audits_recordOperation pst uid _ _ _ _ _ now)
              (auditCtr_recordOperation pst uid _ _ _ _ _ now))
            (auditExt_trans (auditExt_recordAuditLog _ _ now) (auditExt_runAnomaly _ uid now)))

theorem auditExt_decryptData (cfg : Config) (st : Storage) (uid : Nat) (env : List Seg)
    (keyRef : Nat) (res : Seg) (now : Nat) :
    AuditExt st (decryptData cfg st uid env keyRef res now).2 := by
  unfold decryptData
  cases st.getKey keyRef with
  | none => exact auditExt_opFailTail st uid _ res _ now
  | some key =>
    have hgd := auditExt_getDecryptedKey cfg st keyRef now
    cases hq : getDecryptedKey cfg st keyRef now with
    | mk pr pst =>
      rw [hq] at hgd
      dsimp only
      cases pr with
      | error e => exact auditExt_trans hgd (auditExt_opFailTail pst uid _ res _ now)
      | ok payload =>
        dsimp only
        cases dispatchDecrypt key.algorithm payload env with
        | error e => exact auditExt_trans hgd (auditExt_opFailTail pst uid _ res _ now)
        | ok data =>
          exact auditExt_trans hgd (auditExt_trans
            (auditExt_of_eq (audits_recordOperation pst uid _ _ _ _ _ now)
              (auditCtr_recordOperation pst uid _ _ _ _ _ now))
            (auditExt_trans (auditExt_recordAuditLog _ _ now) (auditExt_runAnomaly _ uid now)))

theorem auditExt_revokeKey (st : Storage) (uid keyRef now : Nat) :
    AuditExt st (revokeKey st uid keyRef now).2 := by
  unfold revokeKey
  cases st.getKey keyRef with
  | none => exact auditExt_refl st
  | some key =>
    exact auditExt_trans
      (auditExt_of_eq (audits_updateKey st keyRef _ now) (auditCtr_updateKey st keyRef _ now))
      (auditExt_recordAuditLog _ _ now)

theorem audits_generateKey (cfg : Config) (st : Storage) (uid : Nat) (name : Seg)
    (alg : Algorithm) (fresh : Seg) (seed : Nat) (pubId : Seg) (wrapIv : Seg)
    (now : Nat) :
    (generateKey cfg st uid name alg fresh seed pubId wrapIv now).2.audits = st.audits := by
  unfold generateKey
  cases encryptAES (encodePayload (genPayload alg fresh seed)) cfg.masterKey wrapIv with
  | error e => rfl
  | ok ct => dsimp only; exact audits_createKey st _ now

theorem auditCtr_generateKey (cfg : Config) (st : Storage) (uid : Nat) (name : Seg)
    (alg : Algorithm) (fresh : Seg) (seed : Nat) (pubId : Seg) (wrapIv : Seg)
    (now : Nat) :
    (generateKey cfg st uid name alg fresh seed pubId wrapIv now).2.auditCtr
      = st.auditCtr := by
  unfold generateKey
  cases encryptAES (encodePayload (genPayload alg fresh seed)) cfg.masterKey wrapIv with
  | error e => rfl
  | ok ct => dsimp only; exact auditCtr_createKey st _ now

theorem auditExt_generateKeyBackup (cfg : Config) (st : Storage) (uid : Nat)
    (iv : Seg) (now : Nat) : AuditExt st (generateKeyBackup cfg st uid iv now).2 := by
  unfold generateKeyBackup
  by_cases hn : (st.getUserKeys uid).length = 0
  · simp only [hn, if_pos rfl]; exact auditExt_refl st
  · simp only [hn, if_false]
    cases encryptAES _ cfg.masterKey iv with
    | error e => exact auditExt_refl st
    | ok ct => exact auditExt_recordAuditLog st _ now

theorem auditExt_restoreEntries (uid now : Nat) (st : Storage) (entries : List BEntry) :
    AuditExt st (restoreEntries uid now st entries).2 := by
  induction entries generalizing st with
  | nil => exact auditExt_refl st
  | cons e es ih =>
    unfold restoreEntries
    cases st.getKeyByKeyId e.keyId with
    | some _ => exact ih st
    | none =>
      dsimp only
      exact auditExt_trans
        (auditExt_of_eq (audits_createKey st _ now) (auditCtr_createKey st _ now)) (ih _)

theorem auditExt_restoreKeyBackup (cfg : Config) (st : Storage) (uid : Nat)
    (artifact : List Seg) (now : Nat) :
    AuditExt st (restoreKeyBackup cfg st uid artifact now).2 := by
  unfold restoreKeyBackup
  match artifact with
  | [] => exact auditExt_recordAuditLog st _ now
  | [ivSeg] => exact auditExt_recordAuditLog st _ now
  | ivSeg :: ctSeg :: rest =>
    dsimp only
    cases decryptAES ctSeg cfg.masterKey ivSeg with
    | error e => exact auditExt_recordAuditLog st _ now
    | ok bytes =>
      dsimp only
      cases decodeDoc bytes with
      | none => exact auditExt_recordAuditLog st _ now
      | some doc =>
        dsimp only
        cases hp : restoreEntries uid now st doc.keys with
        | mk c st1 =>
          have h1 := auditExt_restoreEntries uid now st doc.keys
          rw [hp] at h1
          exact auditExt_trans h1 (auditExt_recordAuditLog st1 _ now)

/-- Every public operation only appends audit rows and preserves the
id discipline. -/
theorem auditExt_step (cfg : Config) (st : Storage) (cmd : Cmd) (now : Nat) :
    AuditExt st (step cfg st cmd now) := by
  cases cmd with
  | cGen uid name alg fresh seed pubId wrapIv =>
    exact auditExt_of_eq (audits_generateKey cfg st uid name alg fresh seed pubId wrapIv now)
      (auditCtr_generateKey cfg st uid name alg fresh seed pubId wrapIv now)
  | cEncrypt uid data keyRef res iv eph =>
    exact auditExt_encryptData cfg st uid data keyRef res iv eph now
  | cDecrypt uid env keyRef res => exact auditExt_decryptData cfg st uid env keyRef res now
  | cRevoke uid keyRef => exact auditExt_revokeKey st uid keyRef now
  | cBackup uid iv => exact auditExt_generateKeyBackup cfg st uid iv now
  | cRestore uid artifact => exact auditExt_restoreKeyBackup cfg st uid artifact now

/-! ## Sorting lemmas (claim C8 machinery) -/

theorem insertDesc_perm (ts : α → Nat) (x : α) (l : List α) :
    (insertDesc ts x l).Perm (x :: l) := by
  induction l with
  | nil => exact List.Perm.refl _
  | cons y ys ih =>
    unfold insertDesc
    by_cases hy : ts y ≤ ts x
    · rw [if_pos hy]
    · rw [if_neg hy]
      exact (List.Perm.cons y ih).trans (List.Perm.swap x y ys)

theorem sortTsDesc_perm (ts : α → Nat) (l : List α) : (sortTsDesc ts l).Perm l := by
  induction l with
  | nil => exact List.Perm.refl _
  | cons x xs ih =>
    exact (insertDesc_perm ts x (sortTsDesc ts xs)).trans (List.Perm.cons x ih)

theorem mem_insertDesc {ts : α → Nat} {x z : α} {l : List α}
    (h : z ∈ insertDesc ts x l) : z = x ∨ z ∈ l := by
  have := (insertDesc_perm ts x l).mem_iff.1 h
  simpa using this

theorem insertDesc_sorted {ts : α → Nat} {l : List α} (x : α)
    (h : l.Pairwise (fun a b => ts b ≤ ts a)) :
    (insertDesc ts x l).Pairwise (fun a b => ts b ≤ ts a) := by
  induction l with
  | nil => simp [insertDesc]
  | cons y ys ih =>
    rcases List.pairwise_cons.1 h with ⟨hy, hys⟩
    unfold insertDesc
    by_cases hxy : ts y ≤ ts x
    · rw [if_pos hxy]
      refine List.pairwise_cons.2 ⟨?_, h⟩
      intro z hz
      rcases List.mem_cons.1 hz with hz | hz
      · subst hz; exact hxy
      · exact Nat.le_trans (hy z hz) hxy
    · rw [if_neg hxy]
      refine List.pairwise_cons.2 ⟨?_, ih hys⟩
      intro z hz
      rcases mem_insertDesc hz with hz | hz
      · subst hz; exact Nat.le_of_lt (Nat.lt_of_not_le hxy)
      · exact hy z hz

theorem sortTsDesc_sorted (ts : α → Nat) (l : List α) :
    (sortTsDesc ts l).Pairwise (fun a b => ts b ≤ ts a) := by
  induction l with
  | nil => simp [sortTsDesc]
  | cons x xs ih => exact insertDesc_sorted x ih

/-- Counting a timestamp-upward-closed predicate on a prefix of a
descending-sorted list: the prefix holds at least `min n (count l)`
hits, because hits are front-loaded. -/
theorem countP_take_of_sorted {ts : α → Nat} {p : α → Bool}
    (hmono : ∀ a b, ts b ≤ ts a → p b = true → p a = true) :
    ∀ {l : List α}, l.Pairwise (fun a b => ts b ≤ ts a) → ∀ n,
      min n (l.countP p) ≤ (l.take n).countP p := by
  intro l
  induction l with
  | nil => intro _ n; simp
  | cons x xs ih =>
    intro h n
    rcases List.pairwise_cons.1 h with ⟨hx, hxs⟩
    cases n with
    | zero => simp
    | succ n =>
      rw [List.take_succ_cons]
      by_cases hpx : p x = true
      · rw [List.countP_cons_of_pos _ _ hpx, List.countP_cons_of_pos _ _ hpx]
        rw [Nat.succ_min_succ]
        exact Nat.succ_le_succ (ih hxs n)
      · have hz : xs.countP p = 0 := by
          rw [List.countP_eq_zero]
          intro z hz hpz
          exact hpx (hmono x z (hx z hz) hpz)
        rw [List.countP_cons_of_neg _ _ hpx, hz]
        simp

/-- The Boolean window test, unfolded. -/
theorem inWindow_iff (now ts : Nat) : inWindow now ts = true ↔ now - timeWindowMs ≤ ts := by
  simp [inWindow]

/-- C8: `detectAnomalies` evaluates the detectors in the fixed order
high_volume, high_failure_rate, revoked_key_usage, unusual_time;
whenever the user has more than `MAX_OPERATIONS_PER_MINUTE = 20`
operations inside the 60-second window, it returns the `high_volume`
anomaly with severity `medium`, regardless of any other detector's
condition. -/
theorem detectAnomalies_highVolume_first (ops : List OpRec) (audits : List AuditRec)
    (uid now : Nat)
    (h : 20 < ((ops.filter (fun o => o.userId = uid)).filter
        (fun o => inWindow now o.timestamp)).length) :
    detectAnomalies ops audits uid now =
      some ⟨AnomalyType.highVolume, Severity.medium, uid, now⟩ := by
  have hmono : ∀ a b : OpRec, (fun o : OpRec => o.timestamp) b ≤ (fun o : OpRec => o.timestamp) a →
      (fun o : OpRec => inWindow now o.timestamp) b = true →
      (fun o : OpRec => inWindow now o.timestamp) a = true := by
    intro a b hab hb
    rw [inWindow_iff] at hb ⊢
    exact Nat.le_trans hb hab
  have hperm := sortTsDesc_perm (fun o : OpRec => o.timestamp)
    (ops.filter (fun o => o.userId = uid))
  have hcount : (sortTsDesc (fun o : OpRec => o.timestamp)
      (ops.filter (fun o => o.userId = uid))).countP
        (fun o => inWindow now o.timestamp) =
      (ops.filter (fun o => o.userId = uid)).countP
        (fun o => inWindow now o.timestamp) :=
    hperm.countP_eq _
  have h20 : 20 < (ops.filter (fun o => o.userId = uid)).countP
      (fun o => inWindow now o.timestamp) := by
    rw [List.countP_eq_length_filter]
    exact h
  have htake := countP_take_of_sorted hmono
    (sortTsDesc_sorted (fun o : OpRec => o.timestamp)
      (ops.filter (fun o => o.userId = uid))) 50
  have hwin : 20 < ((userOpsQuery ops uid 50).filter
      (fun o => inWindow now o.timestamp)).length := by
    rw [← List.countP_eq_length_filter]
    refine Nat.lt_of_lt_of_le ?_ htake
    rw [hcount]
    omega
  have hne : ¬ (userOpsQuery ops uid 50).length = 0 := by
    intro h0
    have hle := List.countP_le_length
      (p := fun o : OpRec => inWindow now o.timestamp) (l := userOpsQuery ops uid 50)
    rw [List.countP_eq_length_filter] at hle
    omega
  have hvol : detectVolumeAnomaly ((userOpsQuery ops uid 50).filter
      (fun o => inWindow now o.timestamp)) =
      some ((userOpsQuery ops uid 50).filter (fun o => inWindow now o.timestamp)).length := by
    unfold detectVolumeAnomaly maxOpsPerMinute
    rw [if_pos hwin]
  unfold detectAnomalies
  rw [if_neg hne]
  simp only [hvol]

/-- Witness for C8: 21 operations of user 1 inside the window make
`detectAnomalies` return the medium-severity `high_volume` anomaly. -/
theorem detectAnomalies_highVolume_first_witness :
    20 < ((((List.range 21).map (fun i =>
        ({ id := i, userId := 1, keyId := none, operation := .encryptOp,
           algorithm := .aes256, resourceName := none, status := sSuccess,
           timestamp := 1000 } : OpRec))).filter
        (fun o => o.userId = 1)).filter (fun o => inWindow 1000 o.timestamp)).length ∧
    detectAnomalies ((List.range 21).map (fun i =>
        ({ id := i, userId := 1, keyId := none, operation := .encryptOp,
           algorithm := .aes256, resourceName := none, status := sSuccess,
           timestamp := 1000 } : OpRec))) [] 1 1000 =
      some ⟨AnomalyType.highVolume, Severity.medium, 1, 1000⟩ :=
  ⟨by decide, detectAnomalies_highVolume_first _ [] 1 1000 (by decide)⟩

/-! ## Claim C7: the high-failure-rate detector -/

/-- The fire condition as the specification words it (for comparison
with the source): the ratio of FAILED `DATA_*` audit rows — both
`DATA_ENCRYPT` and `DATA_DECRYPT` — of the actor within the 60-second
window to the total operations in that window is at least `0.30`. -/
def claimFailureCondition (ops : List OpRec) (audits : List AuditRec) (uid now : Nat) :
    Prop :=
  let failedLogs := audits.filter (fun l =>
    (l.action = AuditAction.dataEncrypt ∨ l.action = AuditAction.dataDecrypt) ∧
    l.status = AuditStatus.failed ∧ l.userId = some uid ∧ inWindow now l.timestamp)
  let opsW := ops.filter (fun o => o.userId = uid ∧ inWindow now o.timestamp)
  (3 : ℚ) / 10 ≤ (failedLogs.length : ℚ) / opsW.length

/-- C7 amended, the fire characterization: the detector fires exactly
when at least one of the user's 20 newest FAILED `DATA_ENCRYPT` audits
lies in the window, the window holds at least one operation, and
failed/total ≥ 3/10 (equivalently, `3·total ≤ 10·failed`; with zero
operations the code defines the ratio as 0, so it never fires). -/
theorem detectFailureAnomaly_fires_iff (ops : List OpRec) (audits : List AuditRec)
    (uid now : Nat) :
    detectFailureAnomaly ops audits uid now ≠ none ↔
      1 ≤ (failedEncryptLogsInWindow audits uid now).length ∧
      1 ≤ (opsInWindow ops uid now).length ∧
      3 * (opsInWindow ops uid now).length ≤
        10 * (failedEncryptLogsInWindow audits uid now).length := by
  unfold detectFailureAnomaly failureRate failedOpsThreshold
  by_cases h0 : (failedEncryptLogsInWindow audits uid now).length = 0
  · simp [h0]
  · rw [if_neg h0]
    by_cases hop : (opsInWindow ops uid now).length > 0
    · rw [if_pos hop]
      have hcast : (0 : ℚ) < ((opsInWindow ops uid now).length : ℚ) := by
        exact_mod_cast hop
      have hrat : ((3 : ℚ) / 10 ≤
          ((failedEncryptLogsInWindow audits uid now).length : ℚ) /
            ((opsInWindow ops uid now).length : ℚ)) ↔
          3 * (opsInWindow ops uid now).length ≤
            10 * (failedEncryptLogsInWindow audits uid now).length := by
        rw [div_le_div_iff₀ (by norm_num) hcast]
        constructor
        · intro hle
          have h2 : ((3 * (opsInWindow ops uid now).length : ℕ) : ℚ) ≤
              ((10 * (failedEncryptLogsInWindow audits uid now).length : ℕ) : ℚ) := by
            push_cast
            linarith
          exact_mod_cast h2
        · intro hle
          have h2 : ((3 * (opsInWindow ops uid now).length : ℕ) : ℚ) ≤
              ((10 * (failedEncryptLogsInWindow audits uid now).length : ℕ) : ℚ) := by
            exact_mod_cast hle
          push_cast at h2
          linarith
      by_cases hc : ((failedEncryptLogsInWindow audits uid now).length : ℚ) /
          ((opsInWindow ops uid now).length : ℚ) ≥ 3 / 10
      · rw [if_pos hc]
        constructor
        · intro _
          exact ⟨Nat.one_le_iff_ne_zero.2 h0, hop, hrat.1 hc⟩
        · intro _
          simp
      · rw [if_neg hc]
        constructor
        · intro hfalse
          exact absurd rfl hfalse
        · rintro ⟨-, -, h3⟩
          exact absurd (hrat.2 h3) hc
    · rw [if_neg hop]
      have hneg : ¬ ((0 : ℚ) ≥ 3 / 10) := by norm_num
      rw [if_neg hneg]
      constructor
      · intro hfalse
        exact absurd rfl hfalse
      · rintro ⟨-, ho, -⟩
        omega

/-- C7: (amended) the high_failure_rate detector fires exactly when at
least one of the actor's 20 newest FAILED `DATA_ENCRYPT` audit rows
lies in the 60-second window, the window holds at least one operation,
and the failed-to-total ratio is at least 0.30 (the ratio is defined
as 0 when the window holds no operations); only `DATA_ENCRYPT` audits
are counted, not `DATA_DECRYPT`.  When `detectAnomalies` reports this
anomaly its severity is `high`. -/
theorem highFailureRate_characterization (ops : List OpRec) (audits : List AuditRec)
    (uid now : Nat) :
    (detectFailureAnomaly ops audits uid now ≠ none ↔
      1 ≤ (failedEncryptLogsInWindow audits uid now).length ∧
      1 ≤ (opsInWindow ops uid now).length ∧
      3 * (opsInWindow ops uid now).length ≤
        10 * (failedEncryptLogsInWindow audits uid now).length) ∧
    (∀ a, detectAnomalies ops audits uid now = some a →
      a.anomalyType = AnomalyType.highFailureRate → a.severity = Severity.high) := by
  refine ⟨detectFailureAnomaly_fires_iff ops audits uid now, ?_⟩
  intro a ha hty
  unfold detectAnomalies at ha
  by_cases h0 : (userOpsQuery ops uid 50).length = 0
  · rw [if_pos h0] at ha
    exact absurd ha (by simp)
  · rw [if_neg h0] at ha
    cases hv : detectVolumeAnomaly ((userOpsQuery ops uid 50).filter
        (fun o => inWindow now o.timestamp)) with
    | some n =>
      simp only [hv] at ha
      obtain rfl := Option.some.inj ha
      simp at hty
    | none =>
      simp only [hv] at ha
      cases hf : detectFailureAnomaly ops audits uid now with
      | some pr =>
        simp only [hf] at ha
        obtain rfl := Option.some.inj ha
        rfl
      | none =>
        simp only [hf] at ha
        cases hr : detectRevokedKeyUsage audits uid now with
        | some n2 =>
          simp only [hr] at ha
          obtain rfl := Option.some.inj ha
          simp at hty
        | none =>
          simp only [hr] at ha
          cases ht : detectTimeAnomaly ((userOpsQuery ops uid 50).filter
              (fun o => inWindow now o.timestamp)) with
          | some n3 =>
            simp only [ht] at ha
            obtain rfl := Option.some.inj ha
            simp at hty
          | none =>
            simp only [ht] at ha
            exact absurd ha (by simp)

/-- Counterexample to C7 as stated: one FAILED `DATA_DECRYPT` audit
and one operation inside the window give a claim-side ratio of
1 ≥ 0.30, yet the detector does not fire, because the code queries
only `DATA_ENCRYPT` audits. -/
theorem highFailureRate_claim_counterexample :
    claimFailureCondition
      [{ id := 1, userId := 1, keyId := none, operation := .decryptOp,
         algorithm := .aes256, resourceName := none, status := sSuccess,
         timestamp := 1000 }]
      [{ id := 1, userId := some 1, action := .dataDecrypt, resource := none,
         status := .failed, details := .dErr .keyNotFound, timestamp := 1000 }]
      1 1000 ∧
    detectFailureAnomaly
      [{ id := 1, userId := 1, keyId := none, operation := .decryptOp,
         algorithm := .aes256, resourceName := none, status := sSuccess,
         timestamp := 1000 }]
      [{ id := 1, userId := some 1, action := .dataDecrypt, resource := none,
         status := .failed, details := .dErr .keyNotFound, timestamp := 1000 }]
      1 1000 = none := by
  constructor
  · show (3 : ℚ) / 10 ≤ _
    norm_num [claimFailureCondition, inWindow, timeWindowMs]
  · decide

/-- Witness for (amended) C7: one FAILED `DATA_ENCRYPT` audit and one
operation inside the window make the detector fire. -/
theorem highFailureRate_characterization_witness :
    detectFailureAnomaly
      [{ id := 1, userId := 1, keyId := none, operation := .encryptOp,
         algorithm := .aes256, resourceName := none, status := sSuccess,
         timestamp := 1000 }]
      [{ id := 1, userId := some 1, action := .dataEncrypt, resource := none,
         status := .failed, details := .dErr .keyNotFound, timestamp := 1000 }]
      1 1000 ≠ none :=
  (highFailureRate_characterization
    [{ id := 1, userId := 1, keyId := none, operation := .encryptOp,
       algorithm := .aes256, resourceName := none, status := sSuccess,
       timestamp := 1000 }]
    [{ id := 1, userId := some 1, action := .dataEncrypt, resource := none,
       status := .failed, details := .dErr .keyNotFound, timestamp := 1000 }]
    1 1000).1.mpr ⟨by decide, by decide, by decide⟩

deriving instance DecidableEq for Except

/-! ## Claim C10: revoking an already revoked key -/

/-- C10 amended: revoking a key whose status is already `'revoked'` is
reported as success, leaves every other key untouched and the
operations store unchanged, rewrites only `updatedAt` on the record
(status stays `'revoked'`), and appends one more
`KEY_REVOKE / SUCCESS` audit row. -/
theorem revoke_revoked_effects (st : Storage) (uid keyRef now : Nat) (r : KeyRec)
    (hr : st.getKey keyRef = some r) (hs : r.status = KeyStatus.revoked) :
    (revokeKey st uid keyRef now).1 = .ok () ∧
    (revokeKey st uid keyRef now).2.getKey keyRef = some { r with updatedAt := now } ∧
    (∀ j, j ≠ keyRef → (revokeKey st uid keyRef now).2.getKey j = st.getKey j) ∧
    (revokeKey st uid keyRef now).2.ops = st.ops ∧
    ∃ a, (revokeKey st uid keyRef now).2.audits = st.audits ++ [a] ∧
      a.action = AuditAction.keyRevoke ∧ a.status = AuditStatus.success := by
  have hid : r.id = keyRef := findKey_id hr
  have hpatch : applyPatch r (.setStatus .revoked) now = { r with updatedAt := now } := by
    cases r
    simp only [applyPatch]
    simp_all
  unfold revokeKey
  rw [hr]
  have hup : st.updateKey keyRef (.setStatus .revoked) now =
      (some (applyPatch r (.setStatus .revoked) now),
       { st with keys := replaceKey st.keys keyRef (applyPatch r (.setStatus .revoked) now) }) := by
    unfold Storage.updateKey
    rw [show findKey st.keys keyRef = some r from hr]
  refine ⟨rfl, ?_, ?_, ?_, ?_⟩
  · show findKey ((st.updateKey keyRef (.setStatus .revoked) now).2.keys) keyRef = _
    rw [hup]
    dsimp only
    rw [findKey_replaceKey_eq (by rw [applyPatch_id]; exact hid) hr, hpatch]
  · intro j hj
    show findKey ((st.updateKey keyRef (.setStatus .revoked) now).2.keys) j = _
    rw [hup]
    dsimp only
    exact findKey_replaceKey_ne (by rw [applyPatch_id]; exact hid) hj
  · show ((st.updateKey keyRef (.setStatus .revoked) now).2.recordAuditLog
      { userId := some uid, action := .keyRevoke, resource := some (.rStr r.keyId),
        status := .success, details := .dKeyName r.name } now).ops = st.ops
    rw [ops_recordAuditLog, ops_updateKey]
  · refine ⟨⟨st.auditCtr, some uid, .keyRevoke, some (.rStr r.keyId), .success,
      .dKeyName r.name, now⟩, ?_, rfl, rfl⟩
    show ((st.updateKey keyRef (.setStatus .revoked) now).2.recordAuditLog
      { userId := some uid, action := .keyRevoke, resource := some (.rStr r.keyId),
        status := .success, details := .dKeyName r.name } now).audits = _
    unfold Storage.recordAuditLog
    dsimp only
    rw [audits_updateKey, auditCtr_updateKey]

/-- Counterexample to C10 as stated: a second revoke is not a no-op on
the key record — `updateKey` rewrites `updatedAt` — and it appends a
fresh `KEY_REVOKE / SUCCESS` audit row. -/
theorem revoke_revoked_noop_counterexample :
    (revokeKey
      { keys := [{ id := 1, name := [1], userId := 1, keyId := [9],
                   algorithm := .aes256, keyData := [], iv := [],
                   status := .revoked, createdAt := 0, updatedAt := 5,
                   expiresAt := none, lastUsed := none }],
        ops := [], audits := [], keyCtr := 2, opCtr := 1, auditCtr := 1 }
      1 1 9).1 = .ok () ∧
    (revokeKey
      { keys := [{ id := 1, name := [1], userId := 1, keyId := [9],
                   algorithm := .aes256, keyData := [], iv := [],
                   status := .revoked, createdAt := 0, updatedAt := 5,
                   expiresAt := none, lastUsed := none }],
        ops := [], audits := [], keyCtr := 2, opCtr := 1, auditCtr := 1 }
      1 1 9).2.getKey 1 ≠
      some { id := 1, name := [1], userId := 1, keyId := [9],
             algorithm := .aes256, keyData := [], iv := [],
             status := .revoked, createdAt := 0, updatedAt := 5,
             expiresAt := none, lastUsed := none } ∧
    (revokeKey
      { keys := [{ id := 1, name := [1], userId := 1, keyId := [9],
                   algorithm := .aes256, keyData := [], iv := [],
                   status := .revoked, createdAt := 0, updatedAt := 5,
                   expiresAt := none, lastUsed := none }],
        ops := [], audits := [], keyCtr := 2, opCtr := 1, auditCtr := 1 }
      1 1 9).2.audits.length = 1 := by
  refine ⟨by decide, by decide, by decide⟩

/-- Witness for (amended) C10 at a concrete already-revoked key. -/
theorem revoke_revoked_effects_witness :
    (revokeKey
      { keys := [{ id := 1, name := [1], userId := 1, keyId := [9],
                   algorithm := .aes256, keyData := [], iv := [],
                   status := .revoked, createdAt := 0, updatedAt := 5,
                   expiresAt := none, lastUsed := none }],
        ops := [], audits := [], keyCtr := 2, opCtr := 1, auditCtr := 1 }
      2 1 9).1 = .ok () ∧
    (revokeKey
      { keys := [{ id := 1, name := [1], userId := 1, keyId := [9],
                   algorithm := .aes256, keyData := [], iv := [],
                   status := .revoked, createdAt := 0, updatedAt := 5,
                   expiresAt := none, lastUsed := none }],
        ops := [], audits := [], keyCtr := 2, opCtr := 1, auditCtr := 1 }
      2 1 9).2.getKey 1 =
      some { id := 1, name := [1], userId := 1, keyId := [9],
             algorithm := .aes256, keyData := [], iv := [],
             status := .revoked, createdAt := 0, updatedAt := 9,
             expiresAt := none, lastUsed := none } :=
  ⟨(revoke_revoked_effects _ 2 1 9
      { id := 1, name := [1], userId := 1, keyId := [9], algorithm := .aes256,
        keyData := [], iv := [], status := .revoked, createdAt := 0, updatedAt := 5,
        expiresAt := none, lastUsed := none } (by decide) (by decide)).1,
   (revoke_revoked_effects _ 2 1 9
      { id := 1, name := [1], userId := 1, keyId := [9], algorithm := .aes256,
        keyData := [], iv := [], status := .revoked, createdAt := 0, updatedAt := 5,
        expiresAt := none, lastUsed := none } (by decide) (by decide)).2.1⟩

/-! ## Claim C2: ownership and authorization -/

/-- C2 amended: key listing is scoped to the caller (`getUserKeys`
returns exactly the caller's keys), but the encrypt, decrypt, and
revoke routes apply no ownership or role check: the outcome of
`encryptData`/`decryptData` does not depend on which authenticated
actor calls it, and `revokeKey` on any existing key — owned or not —
succeeds and revokes it. -/
theorem authorization_behavior (cfg : Config) (st : Storage) :
    (∀ uid, ∀ k ∈ st.getUserKeys uid, k.userId = uid) ∧
    (∀ uid k, k ∈ st.keys → k.userId = uid → k ∈ st.getUserKeys uid) ∧
    (∀ u1 u2 data keyRef res iv eph now,
      (encryptData cfg st u1 data keyRef res iv eph now).1 =
        (encryptData cfg st u2 data keyRef res iv eph now).1) ∧
    (∀ u1 u2 env keyRef res now,
      (decryptData cfg st u1 env keyRef res now).1 =
        (decryptData cfg st u2 env keyRef res now).1) ∧
    (∀ u keyRef now r, st.getKey keyRef = some r →
      (revokeKey st u keyRef now).1 = .ok () ∧
      ∃ r2, (revokeKey st u keyRef now).2.getKey keyRef = some r2 ∧
        r2.status = KeyStatus.revoked) := by
  refine ⟨?_, ?_, ?_, ?_, ?_⟩
  · intro uid k hk
    have := List.mem_filter.1 hk
    simpa using this.2
  · intro uid k hk hu
    exact List.mem_filter.2 ⟨hk, by simpa using hu⟩
  · intro u1 u2 data keyRef res iv eph now
    unfold encryptData
    cases st.getKey keyRef with
    | none => rfl
    | some key =>
      cases getDecryptedKey cfg st keyRef now with
      | mk pr pst =>
        cases pr with
        | error e => rfl
        | ok payload =>
          dsimp only
          cases dispatchEncrypt key.algorithm payload data iv eph with
          | error e => rfl
          | ok env => rfl
  · intro u1 u2 env keyRef res now
    unfold decryptData
    cases st.getKey keyRef with
    | none => rfl
    | some key =>
      cases getDecryptedKey cfg st keyRef now with
      | mk pr pst =>
        cases pr with
        | error e => rfl
        | ok payload =>
          dsimp only
          cases dispatchDecrypt key.algorithm payload env with
          | error e => rfl
          | ok data => rfl
  · intro u keyRef now r hr
    have hid : r.id = keyRef := findKey_id hr
    unfold revokeKey
    rw [hr]
    refine ⟨rfl, applyPatch r (.setStatus .revoked) now, ?_, rfl⟩
    show findKey (((st.updateKey keyRef (.setStatus .revoked) now).2.recordAuditLog
        { userId := some u, action := .keyRevoke, resource := some (.rStr r.keyId),
          status := .success, details := .dKeyName r.name } now).keys) keyRef = _
    rw [keys_recordAuditLog]
    have hup : (st.updateKey keyRef (.setStatus .revoked) now).2.keys =
        replaceKey st.keys keyRef (applyPatch r (.setStatus .revoked) now) := by
      unfold Storage.updateKey
      rw [show findKey st.keys keyRef = some r from hr]
    rw [hup]
    exact findKey_replaceKey_eq (by rw [applyPatch_id]; exact hid) hr

/-- Counterexample to C2 as stated: actor 2 is not the owner of key 1
(owned by actor 1), yet revoking it is executed, reported as success,
and flips the status to `'revoked'` — no NotAuthorized-style error. -/
theorem authorization_counterexample :
    ((({ keys := [{ id := 1, name := [1], userId := 1, keyId := [9],
                    algorithm := .aes256, keyData := [], iv := [],
                    status := .active, createdAt := 0, updatedAt := 0,
                    expiresAt := none, lastUsed := none }],
         ops := [], audits := [], keyCtr := 2, opCtr := 1, auditCtr := 1 } :
        Storage).getKey 1).map (fun r => r.userId) = some 1) ∧
    (revokeKey
      { keys := [{ id := 1, name := [1], userId := 1, keyId := [9],
                   algorithm := .aes256, keyData := [], iv := [],
                   status := .active, createdAt := 0, updatedAt := 0,
                   expiresAt := none, lastUsed := none }],
        ops := [], audits := [], keyCtr := 2, opCtr := 1, auditCtr := 1 }
      2 1 7).1 = .ok () ∧
    ((revokeKey
      { keys := [{ id := 1, name := [1], userId := 1, keyId := [9],
                   algorithm := .aes256, keyData := [], iv := [],
                   status := .active, createdAt := 0, updatedAt := 0,
                   expiresAt := none, lastUsed := none }],
        ops := [], audits := [], keyCtr := 2, opCtr := 1, auditCtr := 1 }
      2 1 7).2.getKey 1).map (fun r => r.status) = some KeyStatus.revoked := by
  refine ⟨by decide, by decide, by decide⟩

/-- Witness for (amended) C2: the revoke clause applied to the same
concrete non-owner call. -/
theorem authorization_behavior_witness :
    (revokeKey
      { keys := [{ id := 1, name := [1], userId := 1, keyId := [9],
                   algorithm := .aes256, keyData := [], iv := [],
                   status := .active, createdAt := 0, updatedAt := 0,
                   expiresAt := none, lastUsed := none }],
        ops := [], audits := [], keyCtr := 2, opCtr := 1, auditCtr := 1 }
      2 1 7).1 = .ok () ∧
    ∃ r2, (revokeKey
      { keys := [{ id := 1, name := [1], userId := 1, keyId := [9],
                   algorithm := .aes256, keyData := [], iv := [],
                   status := .active, createdAt := 0, updatedAt := 0,
                   expiresAt := none, lastUsed := none }],
        ops := [], audits := [], keyCtr := 2, opCtr := 1, auditCtr := 1 }
      2 1 7).2.getKey 1 = some r2 ∧ r2.status = KeyStatus.revoked :=
  (authorization_behavior { masterKey := [] } _).2.2.2.2 2 1 7
    { id := 1, name := [1], userId := 1, keyId := [9], algorithm := .aes256,
      keyData := [], iv := [], status := .active, createdAt := 0, updatedAt := 0,
      expiresAt := none, lastUsed := none } (by decide)

/-! ## Claim C5: effects of a failed encrypt/decrypt -/

/-- The FAILED audit row the catch branch writes. -/
def failAudit (uid : Nat) (act : AuditAction) (res : Seg) (e : ErrMsg) (idv now : Nat) :
    AuditRec :=
  ⟨idv, some uid, act, some (.rStr res), .failed, .dErr e, now⟩

/-- The rows the fire-and-forget anomaly analysis appends: one
`ANOMALY_DETECTED / WARNING` row when a detector fires, nothing
otherwise. -/
def anomalyRows (ops : List OpRec) (audits : List AuditRec) (uid now ctr : Nat) :
    List AuditRec :=
  match detectAnomalies ops audits uid now with
  | some a => [⟨ctr, some a.userId, .anomalyDetected, some (.rAnomaly a.anomalyType),
      .warning, .dAnomaly a.anomalyType a.severity, now⟩]
  | none => []

theorem audits_runAnomaly_eq (st : Storage) (uid now : Nat) :
    (runAnomaly st uid now).audits =
      st.audits ++ anomalyRows st.ops st.audits uid now st.auditCtr := by
  unfold runAnomaly anomalyRows
  cases detectAnomalies st.ops st.audits uid now with
  | none => simp
  | some a => rfl

theorem anomalyRows_no_failed (ops : List OpRec) (audits : List AuditRec)
    (uid now ctr : Nat) :
    (anomalyRows ops audits uid now ctr).filter
      (fun r => r.status = AuditStatus.failed) = [] := by
  unfold anomalyRows
  cases detectAnomalies ops audits uid now with
  | none => rfl
  | some a => simp

/-- Shared effect description of the catch tail, relative to a
reference state whose `ops`, `audits` and audit counter the failing
state agrees with. -/
theorem opFailTail_effects {α : Type} (stX st : Storage) (uid : Nat)
    (act : AuditAction) (res : Seg) (e : ErrMsg) (now : Nat)
    (hA : stX.audits = st.audits) (hO : stX.ops = st.ops)
    (hC : stX.auditCtr = st.auditCtr) :
    (opFailTail stX uid act res e now (α := α)).1 = .error e ∧
    (opFailTail stX uid act res e now (α := α)).2.ops = st.ops ∧
    (opFailTail stX uid act res e now (α := α)).2.audits =
      st.audits ++ failAudit uid act res e st.auditCtr now ::
        anomalyRows st.ops (st.audits ++ [failAudit uid act res e st.auditCtr now])
          uid now (st.auditCtr + 1) := by
  unfold opFailTail
  refine ⟨rfl, ?_, ?_⟩
  · rw [ops_runAnomaly, ops_recordAuditLog, hO]
  · rw [audits_runAnomaly_eq]
    unfold Storage.recordAuditLog
    dsimp only
    rw [hA, hO, hC, List.append_assoc]
    rfl

/-- Count of FAILED rows after the catch tail: exactly one more. -/
theorem failedCount_append (audits : List AuditRec) (failRow : AuditRec)
    (rows : List AuditRec) (hf : failRow.status = AuditStatus.failed)
    (hrows : rows.filter (fun r => r.status = AuditStatus.failed) = []) :
    ((audits ++ failRow :: rows).filter
      (fun r => r.status = AuditStatus.failed)).length =
      (audits.filter (fun r => r.status = AuditStatus.failed)).length + 1 := by
  rw [List.filter_append, List.filter_cons]
  simp [hf, hrows]

/-- On any failure, `encryptData` is exactly the catch tail applied to
an intermediate state that agrees with the start state on the
operations store, the audit log, and the audit counter. -/
theorem encryptData_error_eq_failTail (cfg : Config) (st : Storage) (uid : Nat)
    (data : Seg) (keyRef : Nat) (res : Seg) (iv : Seg) (eph : Nat) (now : Nat)
    (e : ErrMsg) (h : (encryptData cfg st uid data keyRef res iv eph now).1 = .error e) :
    ∃ stX, stX.audits = st.audits ∧ stX.ops = st.ops ∧ stX.auditCtr = st.auditCtr ∧
      encryptData cfg st uid data keyRef res iv eph now =
        opFailTail stX uid .dataEncrypt res e now := by
  unfold encryptData at h ⊢
  cases hk : st.getKey keyRef with
  | none =>
    rw [hk] at h
    dsimp only at h ⊢
    have h2 : (Except.error ErrMsg.keyNotFound : Except ErrMsg (List Seg)) =
        .error e := h
    injection h2 with h2
    subst h2
    exact ⟨st, rfl, rfl, rfl, rfl⟩
  | some key =>
    rw [hk] at h
    dsimp only at h ⊢
    cases hq : getDecryptedKey cfg st keyRef now with
    | mk pr pst =>
      rw [hq] at h
      have hA : pst.audits = st.audits := by
        have hx := audits_getDecryptedKey cfg st keyRef now
        rw [hq] at hx
        exact hx
      have hO : pst.ops = st.ops := by
        have hx := ops_getDecryptedKey cfg st keyRef now
        rw [hq] at hx
        exact hx
      have hC : pst.auditCtr = st.auditCtr := by
        have hx := auditCtr_getDecryptedKey cfg st keyRef now
        rw [hq] at hx
        exact hx
      cases pr with
      | error e0 =>
        dsimp only at h ⊢
        have h2 : (Except.error e0 : Except ErrMsg (List Seg)) = .error e := h
        injection h2 with h2
        subst h2
        exact ⟨pst, hA, hO, hC, rfl⟩
      | ok payload =>
        dsimp only at h ⊢
        cases hd : dispatchEncrypt key.algorithm payload data iv eph with
        | error e0 =>
          rw [hd] at h
          dsimp only at h ⊢
          have h2 : (Except.error e0 : Except ErrMsg (List Seg)) = .error e := h
          injection h2 with h2
          subst h2
          exact ⟨pst, hA, hO, hC, rfl⟩
        | ok env =>
          rw [hd] at h
          dsimp only at h
          exact absurd h (by simp)

/-- On any failure, `decryptData` is exactly the catch tail applied to
an intermediate state that agrees with the start state on the
operations store, the audit log, and the audit counter. -/
theorem decryptData_error_eq_failTail (cfg : Config) (st : Storage) (uid : Nat)
    (env : List Seg) (keyRef : Nat) (res : Seg) (now : Nat)
    (e : ErrMsg) (h : (decryptData cfg st uid env keyRef res now).1 = .error e) :
    ∃ stX, stX.audits = st.audits ∧ stX.ops = st.ops ∧ stX.auditCtr = st.auditCtr ∧
      decryptData cfg st uid env keyRef res now =
        opFailTail stX uid .dataDecrypt res e now := by
  unfold decryptData at h ⊢
  cases hk : st.getKey keyRef with
  | none =>
    rw [hk] at h
    dsimp only at h ⊢
    have h2 : (Except.error ErrMsg.keyNotFound : Except ErrMsg Seg) = .error e := h
    injection h2 with h2
    subst h2
    exact ⟨st, rfl, rfl, rfl, rfl⟩
  | some key =>
    rw [hk] at h
    dsimp only at h ⊢
    cases hq : getDecryptedKey cfg st keyRef now with
    | mk pr pst =>
      rw [hq] at h
      have hA : pst.audits = st.audits := by
        have hx := audits_getDecryptedKey cfg st keyRef now
        rw [hq] at hx
        exact hx
      have hO : pst.ops = st.ops := by
        have hx := ops_getDecryptedKey cfg st keyRef now
        rw [hq] at hx
        exact hx
      have hC : pst.auditCtr = st.auditCtr := by
        have hx := auditCtr_getDecryptedKey cfg st keyRef now
        rw [hq] at hx
        exact hx
      cases pr with
      | error e0 =>
        dsimp only at h ⊢
        have h2 : (Except.error e0 : Except ErrMsg Seg) = .error e := h
        injection h2 with h2
        subst h2
        exact ⟨pst, hA, hO, hC, rfl⟩
      | ok payload =>
        dsimp only at h ⊢
        cases hd : dispatchDecrypt key.algorithm payload env with
        | error e0 =>
          rw [hd] at h
          dsimp only at h ⊢
          have h2 : (Except.error e0 : Except ErrMsg Seg) = .error e := h
          injection h2 with h2
          subst h2
          exact ⟨pst, hA, hO, hC, rfl⟩
        | ok dres =>
          rw [hd] at h
          dsimp only at h
          exact absurd h (by simp)

/-- C5: whenever `encryptData` or `decryptData` fails (unknown key,
inactive key, dispatch or primitive error), no row is added to the
operations store, the audit log is extended by exactly one FAILED row
for the action carrying `details.error`, followed by precisely the
rows the still-invoked anomaly analysis emits for the actor, and the
count of FAILED audit rows rises by exactly one; the error itself is
what the caller receives. -/
theorem failurePath_effects (cfg : Config) (st : Storage) (uid keyRef : Nat)
    (res : Seg) (now : Nat) :
    (∀ data iv eph e,
      (encryptData cfg st uid data keyRef res iv eph now).1 = .error e →
      (encryptData cfg st uid data keyRef res iv eph now).2.ops = st.ops ∧
      (encryptData cfg st uid data keyRef res iv eph now).2.audits =
        st.audits ++ failAudit uid .dataEncrypt res e st.auditCtr now ::
          anomalyRows st.ops
            (st.audits ++ [failAudit uid .dataEncrypt res e st.auditCtr now])
            uid now (st.auditCtr + 1) ∧
      ((encryptData cfg st uid data keyRef res iv eph now).2.audits.filter
        (fun r => r.status = AuditStatus.failed)).length =
        (st.audits.filter (fun r => r.status = AuditStatus.failed)).length + 1) ∧
    (∀ env e,
      (decryptData cfg st uid env keyRef res now).1 = .error e →
      (decryptData cfg st uid env keyRef res now).2.ops = st.ops ∧
      (decryptData cfg st uid env keyRef res now).2.audits =
        st.audits ++ failAudit uid .dataDecrypt res e st.auditCtr now ::
          anomalyRows st.ops
            (st.audits ++ [failAudit uid .dataDecrypt res e st.auditCtr now])
            uid now (st.auditCtr + 1) ∧
      ((decryptData cfg st uid env keyRef res now).2.audits.filter
        (fun r => r.status = AuditStatus.failed)).length =
        (st.audits.filter (fun r => r.status = AuditStatus.failed)).length + 1) := by
  constructor
  · intro data iv eph e h
    obtain ⟨stX, hA, hO, hC, heq⟩ :=
      encryptData_error_eq_failTail cfg st uid data keyRef res iv eph now e h
    have heff := opFailTail_effects (α := List Seg) stX st uid .dataEncrypt res e now
      hA hO hC
    rw [heq]
    refine ⟨heff.2.1, heff.2.2, ?_⟩
    rw [heff.2.2]
    exact failedCount_append _ _ _ rfl (anomalyRows_no_failed _ _ _ _ _)
  · intro env e h
    obtain ⟨stX, hA, hO, hC, heq⟩ :=
      decryptData_error_eq_failTail cfg st uid env keyRef res now e h
    have heff := opFailTail_effects (α := Seg) stX st uid .dataDecrypt res e now
      hA hO hC
    rw [heq]
    refine ⟨heff.2.1, heff.2.2, ?_⟩
    rw [heff.2.2]
    exact failedCount_append _ _ _ rfl (anomalyRows_no_failed _ _ _ _ _)

/-- Witness for C5: encrypting under an unknown key id on the empty
store fails with `keyNotFound`, writes no operation row, and adds
exactly one FAILED audit row. -/
theorem failurePath_effects_witness :
    (encryptData { masterKey := List.replicate 32 0 } Storage.init 1 [5] 1 [2]
      (List.replicate 16 0) 0 99).1 = .error .keyNotFound ∧
    (encryptData { masterKey := List.replicate 32 0 } Storage.init 1 [5] 1 [2]
      (List.replicate 16 0) 0 99).2.ops = Storage.init.ops ∧
    ((encryptData { masterKey := List.replicate 32 0 } Storage.init 1 [5] 1 [2]
      (List.replicate 16 0) 0 99).2.audits.filter
        (fun r => r.status = AuditStatus.failed)).length =
      (Storage.init.audits.filter (fun r => r.status = AuditStatus.failed)).length + 1 :=
  ⟨by decide,
   ((failurePath_effects { masterKey := List.replicate 32 0 } Storage.init 1 1 [2] 99).1
      [5] (List.replicate 16 0) 0 .keyNotFound (by decide)).1,
   ((failurePath_effects { masterKey := List.replicate 32 0 } Storage.init 1 1 [2] 99).1
      [5] (List.replicate 16 0) 0 .keyNotFound (by decide)).2.2⟩

/-! ## Claim C3: revocation is permanent for encrypt/decrypt -/

theorem revokeKey_ok_revokedAt {st : Storage} {uid keyRef now : Nat}
    (h : (revokeKey st uid keyRef now).1 = .ok ()) :
    revokedAt (revokeKey st uid keyRef now).2 keyRef := by
  unfold revokeKey at h ⊢
  cases hk : st.getKey keyRef with
  | none =>
    rw [hk] at h
    exact absurd h (by simp)
  | some r =>
    have hid : r.id = keyRef := findKey_id hk
    refine ⟨applyPatch r (.setStatus .revoked) now, ?_, rfl⟩
    show findKey (((st.updateKey keyRef (.setStatus .revoked) now).2.recordAuditLog
        { userId := some uid, action := .keyRevoke, resource := some (.rStr r.keyId),
          status := .success, details := .dKeyName r.name } now).keys) keyRef = _
    rw [keys_recordAuditLog]
    have hup : (st.updateKey keyRef (.setStatus .revoked) now).2.keys =
        replaceKey st.keys keyRef (applyPatch r (.setStatus .revoked) now) := by
      unfold Storage.updateKey
      rw [show findKey st.keys keyRef = some r from hk]
    rw [hup]
    exact findKey_replaceKey_eq (by rw [applyPatch_id]; exact hid) hk

theorem encryptData_keyNotActive {st2 : Storage} {keyRef : Nat} (cfg : Config)
    (uid2 : Nat) (data : Seg) (res : Seg) (iv : Seg) (eph : Nat) (now2 : Nat)
    (hrev : revokedAt st2 keyRef) :
    (encryptData cfg st2 uid2 data keyRef res iv eph now2).1 =
      .error (.keyNotActive .revoked) := by
  obtain ⟨r, hr, hs⟩ := hrev
  unfold encryptData
  rw [hr]
  have hgd : getDecryptedKey cfg st2 keyRef now2 =
      (.error (.keyNotActive .revoked), st2) := by
    unfold getDecryptedKey
    rw [hr]
    simp [hs]
  rw [hgd]
  rfl

theorem decryptData_keyNotActive {st2 : Storage} {keyRef : Nat} (cfg : Config)
    (uid2 : Nat) (env : List Seg) (res : Seg) (now2 : Nat)
    (hrev : revokedAt st2 keyRef) :
    (decryptData cfg st2 uid2 env keyRef res now2).1 =
      .error (.keyNotActive .revoked) := by
  obtain ⟨r, hr, hs⟩ := hrev
  unfold decryptData
  rw [hr]
  have hgd : getDecryptedKey cfg st2 keyRef now2 =
      (.error (.keyNotActive .revoked), st2) := by
    unfold getDecryptedKey
    rw [hr]
    simp [hs]
  rw [hgd]
  rfl

/-- C3: once `revoke(k)` succeeds, every subsequent `encryptData` or
`decryptData` referencing `k` — after any sequence of further public
operations — fails with the `KeyNotActive` error; key material is
never unwrapped for a non-active key (`getDecryptedKey` rejects before
touching the wrapped material). -/
theorem revoked_key_always_rejected (cfg : Config) (st : Storage)
    (uid keyRef now : Nat) (h : (revokeKey st uid keyRef now).1 = .ok ())
    (cmds : List (Cmd × Nat)) (uid2 : Nat) (data : Seg) (res : Seg) (iv : Seg)
    (eph : Nat) (now2 : Nat) (env : List Seg) (res2 : Seg) (now3 : Nat) :
    (encryptData cfg (runCmds cfg (revokeKey st uid keyRef now).2 cmds)
      uid2 data keyRef res iv eph now2).1 = .error (.keyNotActive .revoked) ∧
    (decryptData cfg (runCmds cfg (revokeKey st uid keyRef now).2 cmds)
      uid2 env keyRef res2 now3).1 = .error (.keyNotActive .revoked) := by
  have hrev := revokedAt_runCmds cfg cmds (revokeKey_ok_revokedAt h)
  exact ⟨encryptData_keyNotActive cfg uid2 data res iv eph now2 hrev,
         decryptData_keyNotActive cfg uid2 env res2 now3 hrev⟩

/-- Witness for C3: revoke a concrete active key, run one interleaved
command, and observe both encrypt and decrypt fail with
`KeyNotActive`. -/
theorem revoked_key_always_rejected_witness :
    (encryptData { masterKey := List.replicate 32 0 }
      (runCmds { masterKey := List.replicate 32 0 }
        (revokeKey
          { keys := [{ id := 1, name := [1], userId := 1, keyId := [9],
                       algorithm := .aes256, keyData := [], iv := [],
                       status := .active, createdAt := 0, updatedAt := 0,
                       expiresAt := none, lastUsed := none }],
            ops := [], audits := [], keyCtr := 2, opCtr := 1, auditCtr := 1 }
          1 1 5).2
        [(Cmd.cBackup 1 (List.replicate 16 0), 6)])
      1 [3] 1 [] (List.replicate 16 0) 0 7).1 = .error (.keyNotActive .revoked) ∧
    (decryptData { masterKey := List.replicate 32 0 }
      (runCmds { masterKey := List.replicate 32 0 }
        (revokeKey
          { keys := [{ id := 1, name := [1], userId := 1, keyId := [9],
                       algorithm := .aes256, keyData := [], iv := [],
                       status := .active, createdAt := 0, updatedAt := 0,
                       expiresAt := none, lastUsed := none }],
            ops := [], audits := [], keyCtr := 2, opCtr := 1, auditCtr := 1 }
          1 1 5).2
        [(Cmd.cBackup 1 (List.replicate 16 0), 6)])
      1 [[2], [3]] 1 [] 8).1 = .error (.keyNotActive .revoked) :=
  revoked_key_always_rejected { masterKey := List.replicate 32 0 } _ 1 1 5 (by decide)
    [(Cmd.cBackup 1 (List.replicate 16 0), 6)] 1 [3] [] (List.replicate 16 0) 0 7
    [[2], [3]] [] 8

/-! ## Claim C9: audit totality and id discipline -/

/-- C9 amended: the audit log is append-only and its ids strictly
increase in append order under every public operation; but not every
call produces exactly one record: key generation writes no audit row
at all, while a revoke of an existing key writes exactly one
`KEY_REVOKE / SUCCESS` row. -/
theorem auditTrail_appendOnly_strict (cfg : Config) (st : Storage) (cmd : Cmd)
    (now : Nat) (h : AuditWF st) :
    (∃ tail, (step cfg st cmd now).audits = st.audits ++ tail) ∧
    AuditWF (step cfg st cmd now) ∧
    ((step cfg st cmd now).audits.map (fun a => a.id)).Pairwise (· < ·) ∧
    (∀ uid name alg fresh seed pubId wrapIv,
      cmd = Cmd.cGen uid name alg fresh seed pubId wrapIv →
      (step cfg st cmd now).audits = st.audits) ∧
    (∀ uid keyRef, cmd = Cmd.cRevoke uid keyRef → st.getKey keyRef ≠ none →
      ∃ a, (step cfg st cmd now).audits = st.audits ++ [a] ∧
        a.action = AuditAction.keyRevoke ∧ a.status = AuditStatus.success) := by
  obtain ⟨htail, hwf⟩ := auditExt_step cfg st cmd now
  have hwf2 := hwf h
  refine ⟨htail, hwf2, ?_, ?_, ?_⟩
  · exact List.pairwise_map.mpr hwf2.mono
  · intro uid name alg fresh seed pubId wrapIv hc
    subst hc
    exact audits_generateKey cfg st uid name alg fresh seed pubId wrapIv now
  · intro uid keyRef hc hk
    subst hc
    cases hk2 : st.getKey keyRef with
    | none => exact absurd hk2 hk
    | some r =>
      refine ⟨⟨st.auditCtr, some uid, .keyRevoke, some (.rStr r.keyId), .success,
        .dKeyName r.name, now⟩, ?_, rfl, rfl⟩
      show (revokeKey st uid keyRef now).2.audits = _
      unfold revokeKey
      rw [hk2]
      show (((st.updateKey keyRef (.setStatus .revoked) now).2).recordAuditLog
        { userId := some uid, action := .keyRevoke, resource := some (.rStr r.keyId),
          status := .success, details := .dKeyName r.name } now).audits = _
      unfold Storage.recordAuditLog
      dsimp only
      rw [audits_updateKey, auditCtr_updateKey]

/-- Counterexample to C9 as stated: a successful `generateKey` call (a
public operation reachable from `POST /api/keys`) creates the key
record but writes zero audit rows, not exactly one. -/
theorem audit_per_call_counterexample :
    (generateKey { masterKey := List.replicate 32 0 } Storage.init 1 [1] .aes256
      (List.replicate 32 7) 0 [9] (List.replicate 16 0) 5).2.keys.length = 1 ∧
    (generateKey { masterKey := List.replicate 32 0 } Storage.init 1 [1] .aes256
      (List.replicate 32 7) 0 [9] (List.replicate 16 0) 5).2.audits.length = 0 ∧
    ¬ ((generateKey { masterKey := List.replicate 32 0 } Storage.init 1 [1] .aes256
      (List.replicate 32 7) 0 [9] (List.replicate 16 0) 5).2.audits.length =
        Storage.init.audits.length + 1) := by
  refine ⟨by decide, by decide, by decide⟩

/-- Witness for (amended) C9 at a concrete revoke call. -/
theorem auditTrail_appendOnly_strict_witness :
    ∃ tail, (step { masterKey := List.replicate 32 0 }
      { keys := [{ id := 1, name := [1], userId := 1, keyId := [9],
                   algorithm := .aes256, keyData := [], iv := [],
                   status := .active, createdAt := 0, updatedAt := 0,
                   expiresAt := none, lastUsed := none }],
        ops := [], audits := [], keyCtr := 2, opCtr := 1, auditCtr := 1 }
      (Cmd.cRevoke 1 1) 9).audits =
      ({ keys := [{ id := 1, name := [1], userId := 1, keyId := [9],
                    algorithm := .aes256, keyData := [], iv := [],
                    status := .active, createdAt := 0, updatedAt := 0,
                    expiresAt := none, lastUsed := none }],
         ops := [], audits := [], keyCtr := 2, opCtr := 1, auditCtr := 1 } :
        Storage).audits ++ tail :=
  (auditTrail_appendOnly_strict { masterKey := List.replicate 32 0 } _
    (Cmd.cRevoke 1 1) 9
    ⟨by intro a ha; simp at ha, by simp⟩).1

/-! ## Claims C4 and C1: envelope handling and round trips -/

/-- Unwrapping a record's stored key material under the master key
(the pure part of `getDecryptedKey`). -/
def unwrapKey (cfg : Config) (r : KeyRec) : Option Payload :=
  match decryptAES r.keyData cfg.masterKey r.iv with
  | .ok bytes => decodePayload bytes
  | .error _ => none

theorem getDecryptedKey_active {cfg : Config} {st : Storage} {keyRef : Nat}
    {r : KeyRec} {payload : Payload} (now : Nat)
    (hr : st.getKey keyRef = some r) (hs : r.status = KeyStatus.active)
    (hw : unwrapKey cfg r = some payload) :
    getDecryptedKey cfg st keyRef now =
      (.ok payload, (st.updateKey keyRef (.setLastUsed now) now).2) := by
  unfold getDecryptedKey
  rw [hr]
  dsimp only
  rw [if_neg (by simp [hs])]
  unfold unwrapKey at hw
  cases hd : decryptAES r.keyData cfg.masterKey r.iv with
  | error e => rw [hd] at hw; exact absurd hw (by simp)
  | ok bytes =>
    rw [hd] at hw
    dsimp only at hw ⊢
    rw [hw]

/-- Any envelope whose segment count is not 3 makes `decryptWithECC`
throw a wrapped format error before touching the cipher. -/
theorem decryptWithECC_len_ne3 (env : List Seg) (priv : Nat) (h : env.length ≠ 3) :
    ∃ e, decryptWithECC env priv = .error (.eccWrap e) := by
  match env with
  | [] => exact ⟨.eccFormat, rfl⟩
  | [a] => exact ⟨.eccFormat, rfl⟩
  | [a, b] => exact ⟨.eccParts 2, rfl⟩
  | [a, b, c] => exact absurd rfl h
  | a :: b :: c :: d :: t =>
    refine ⟨.eccParts (a :: b :: c :: d :: t).length, ?_⟩
    unfold decryptWithECC
    rw [if_neg (by simp)]

/-- C4 amended: ECC decryption rejects any envelope whose
colon-separated segment count is not 3, with a wrapped
malformed-envelope error; the AES branch fails when the envelope has
fewer than 2 segments, but with more than 2 it silently uses the
first two and ignores the rest; the RSA branch hex-decodes the whole
string, which truncates at the first colon, so only the first segment
reaches the primitive. -/
theorem envelope_segment_handling (cfg : Config) (st : Storage) (uid keyRef : Nat)
    (res : Seg) (now : Nat) (r : KeyRec) (payload : Payload)
    (hr : st.getKey keyRef = some r) (hs : r.status = KeyStatus.active)
    (hw : unwrapKey cfg r = some payload) :
    (∀ k, payload = .aes k → r.algorithm = .aes256 ∨ r.algorithm = .aes128 →
      (∀ ivSeg ct rest,
        (decryptData cfg st uid (ivSeg :: ct :: rest) keyRef res now).1 =
          (decryptData cfg st uid [ivSeg, ct] keyRef res now).1) ∧
      (∀ env : List Seg, env.length < 2 →
        (decryptData cfg st uid env keyRef res now).1 = .error .badEnvelope)) ∧
    (∀ pub priv, payload = .asym pub priv →
      (r.algorithm = .eccP256 →
        ∀ env : List Seg, env.length ≠ 3 →
          ∃ e, (decryptData cfg st uid env keyRef res now).1 = .error (.eccWrap e)) ∧
      (r.algorithm = .rsa2048 →
        ∀ ct rest,
          (decryptData cfg st uid (ct :: rest) keyRef res now).1 =
            (decryptData cfg st uid [ct] keyRef res now).1)) := by
  have hgd := getDecryptedKey_active now hr hs hw
  constructor
  · intro k hp halg
    subst hp
    constructor
    · intro ivSeg ct rest
      unfold decryptData
      rw [hr, hgd]
      dsimp only
      have hdisp : dispatchDecrypt r.algorithm (.aes k) (ivSeg :: ct :: rest) =
          dispatchDecrypt r.algorithm (.aes k) [ivSeg, ct] := by
        rcases halg with h1 | h1 <;> rw [h1] <;> rfl
      rw [hdisp]
    · intro env hlen
      unfold decryptData
      rw [hr, hgd]
      dsimp only
      have hdisp : dispatchDecrypt r.algorithm (.aes k) env = .error .badEnvelope := by
        match env, hlen with
        | [], _ => rcases halg with h1 | h1 <;> rw [h1] <;> rfl
        | [a], _ => rcases halg with h1 | h1 <;> rw [h1] <;> rfl
      rw [hdisp]
      rfl
  · intro pub priv hp
    subst hp
    constructor
    · intro halg env hlen
      unfold decryptData
      rw [hr, hgd]
      dsimp only
      obtain ⟨e, he⟩ := decryptWithECC_len_ne3 env priv hlen
      have hdisp : dispatchDecrypt r.algorithm (.asym pub priv) env =
          .error (.eccWrap e) := by
        rw [halg]
        exact he
      rw [hdisp]
      exact ⟨e, rfl⟩
    · intro halg ct rest
      unfold decryptData
      rw [hr, hgd]
      dsimp only
      have hdisp : dispatchDecrypt r.algorithm (.asym pub priv) (ct :: rest) =
          dispatchDecrypt r.algorithm (.asym pub priv) [ct] := by
        rw [halg]
        rfl
      rw [hdisp]

/-- Counterexample to C4 as stated: an AES envelope with three
colon-separated segments (required count: 2) is not rejected — the
extra segment is silently ignored and decryption succeeds, returning
the original plaintext. -/
theorem envelope_extra_segment_counterexample :
    ([List.replicate 16 0,
      streamEnc (keyStream (List.replicate 32 7) (List.replicate 16 0)) [5, 6],
      [9, 9]] : List Seg).length = 3 ∧
    ((generateKey { masterKey := List.replicate 32 0 } Storage.init 1 [1] .aes256
        (List.replicate 32 7) 0 [9] (List.replicate 16 0) 5).2.getKey 1).map
      (fun r => r.algorithm) = some Algorithm.aes256 ∧
    (decryptData { masterKey := List.replicate 32 0 }
      (generateKey { masterKey := List.replicate 32 0 } Storage.init 1 [1] .aes256
        (List.replicate 32 7) 0 [9] (List.replicate 16 0) 5).2
      1
      [List.replicate 16 0,
       streamEnc (keyStream (List.replicate 32 7) (List.replicate 16 0)) [5, 6],
       [9, 9]]
      1 [] 7).1 = .ok [5, 6] := by
  refine ⟨by decide, by decide, by decide⟩

/-- Witness for (amended) C4: a one-segment AES envelope fails with the
missing-segment error at a concrete key. -/
theorem envelope_segment_handling_witness :
    (decryptData { masterKey := List.replicate 32 0 }
      (generateKey { masterKey := List.replicate 32 0 } Storage.init 1 [1] .aes256
        (List.replicate 32 7) 0 [9] (List.replicate 16 0) 5).2
      1 [[1]] 1 [] 7).1 = .error .badEnvelope :=
  ((envelope_segment_handling { masterKey := List.replicate 32 0 }
      (generateKey { masterKey := List.replicate 32 0 } Storage.init 1 [1] .aes256
        (List.replicate 32 7) 0 [9] (List.replicate 16 0) 5).2
      1 1 [] 7
      { id := 1, name := [1], userId := 1, keyId := [9], algorithm := .aes256,
        keyData := streamEnc (keyStream (List.replicate 32 0) (List.replicate 16 0))
          (encodePayload (.aes (List.replicate 32 7))),
        iv := List.replicate 16 0, status := .active, createdAt := 5, updatedAt := 5,
        expiresAt := none, lastUsed := none }
      (.aes (List.replicate 32 7)) (by decide) (by decide) (by decide)).1
    (List.replicate 32 7) rfl (Or.inl rfl)).2 [[1]] (by decide)

/-- On every generated P-256 SPKI the byte scan finds the `0x03`
inside the prime256v1 OID and returns the 68-byte buffer
`03 42 00 04` followed by the point, which `computeSecret` rejects, so
the shared-secret derivation fails for every key and every ephemeral
scalar. -/
theorem deriveSharedSecret_badPoint (scalar pubSeed : Nat) :
    deriveSharedSecretFromPublicKey scalar pubSeed = .error .badPoint := rfl

/-- Hence every ECC encryption attempt throws the wrapped point
error. -/
theorem encryptWithECC_badPoint (data : Seg) (pub : Nat) (iv : Seg) (eph : Nat) :
    encryptWithECC data pub iv eph = .error (.eccWrap .badPoint) := by
  unfold encryptWithECC
  rw [deriveSharedSecret_badPoint]

/-- C1 amended: for an active key with well-formed wrapped material,
`decrypt(encrypt(p)) = p` holds for AES-256-CBC (32-byte key) and for
RSA-2048 with plaintexts of admissible length (≤ 245 bytes); but an
AES-128-CBC key (16-byte material) can never encrypt — the AES
helpers hardcode the `'aes-256-cbc'` cipher, so `encryptData` always
fails with the invalid-key-length error — and an ECC-P256 key can
never encrypt either: `extractPublicKeyFromDER` hits the `0x03`
inside the prime256v1 OID of the SPKI DER and hands `computeSecret` a
68-byte non-point, so every ECC encrypt fails with the wrapped point
error and no ECC round trip is possible. -/
theorem roundtrip_by_algorithm (cfg : Config) (st : Storage) (uid : Nat) (data : Seg)
    (keyRef : Nat) (res : Seg) (iv : Seg) (eph : Nat) (now : Nat) (r : KeyRec)
    (payload : Payload) (hr : st.getKey keyRef = some r)
    (hs : r.status = KeyStatus.active) (hw : unwrapKey cfg r = some payload)
    (hiv : iv.length = 16) :
    (∀ k, payload = .aes k → k.length = 32 → r.algorithm = .aes256 →
      ∃ env, (encryptData cfg st uid data keyRef res iv eph now).1 = .ok env ∧
        ∀ st2 uid2 res2 now2 r2, st2.getKey keyRef = some r2 →
          r2.status = KeyStatus.active → r2.algorithm = r.algorithm →
          unwrapKey cfg r2 = some payload →
          (decryptData cfg st2 uid2 env keyRef res2 now2).1 = .ok data) ∧
    (∀ k, payload = .aes k → k.length = 16 →
      r.algorithm = .aes256 ∨ r.algorithm = .aes128 →
      (encryptData cfg st uid data keyRef res iv eph now).1 = .error .invalidKeyLen) ∧
    (∀ n, payload = .asym n n → r.algorithm = .rsa2048 → data.length ≤ 245 →
      ∃ env, (encryptData cfg st uid data keyRef res iv eph now).1 = .ok env ∧
        ∀ st2 uid2 res2 now2 r2, st2.getKey keyRef = some r2 →
          r2.status = KeyStatus.active → r2.algorithm = r.algorithm →
          unwrapKey cfg r2 = some payload →
          (decryptData cfg st2 uid2 env keyRef res2 now2).1 = .ok data) ∧
    (∀ n, payload = .asym n n → r.algorithm = .eccP256 →
      (encryptData cfg st uid data keyRef res iv eph now).1 =
        .error (.eccWrap .badPoint)) := by
  have hgd := getDecryptedKey_active now hr hs hw
  refine ⟨?_, ?_, ?_, ?_⟩
  · intro k hp hk32 halg
    subst hp
    refine ⟨[iv, streamEnc (keyStream k iv) data], ?_, ?_⟩
    · unfold encryptData
      rw [hr, hgd]
      dsimp only
      have hdisp : dispatchEncrypt r.algorithm (.aes k) data iv eph =
          .ok [iv, streamEnc (keyStream k iv) data] := by
        rw [halg]
        unfold dispatchEncrypt encryptAES
        dsimp only
        rw [if_neg (by omega), if_neg (by omega)]
        rfl
      rw [hdisp]
    · intro st2 uid2 res2 now2 r2 hr2 hs2 halg2 hw2
      have hgd2 := getDecryptedKey_active now2 hr2 hs2 hw2
      unfold decryptData
      rw [hr2, hgd2]
      dsimp only
      have hdisp : dispatchDecrypt r2.algorithm (.aes k)
          [iv, streamEnc (keyStream k iv) data] = .ok data := by
        rw [halg2, halg]
        unfold dispatchDecrypt decryptAES
        dsimp only
        rw [if_neg (by omega), if_neg (by omega), streamDec_streamEnc]
      rw [hdisp]
  · intro k hp hk16 halg
    subst hp
    unfold encryptData
    rw [hr, hgd]
    dsimp only
    have hdisp : dispatchEncrypt r.algorithm (.aes k) data iv eph =
        .error .invalidKeyLen := by
      rcases halg with h1 | h1 <;> rw [h1] <;>
        (unfold dispatchEncrypt encryptAES
         dsimp only
         rw [if_pos (by omega)]
         rfl)
    rw [hdisp]
    rfl
  · intro n hp halg hlen
    subst hp
    refine ⟨[streamEnc (rsaStream n) data], ?_, ?_⟩
    · unfold encryptData
      rw [hr, hgd]
      dsimp only
      have hdisp : dispatchEncrypt r.algorithm (.asym n n) data iv eph =
          .ok [streamEnc (rsaStream n) data] := by
        rw [halg]
        unfold dispatchEncrypt encryptRSA
        dsimp only
        rw [if_neg (by omega)]
        rfl
      rw [hdisp]
    · intro st2 uid2 res2 now2 r2 hr2 hs2 halg2 hw2
      have hgd2 := getDecryptedKey_active now2 hr2 hs2 hw2
      unfold decryptData
      rw [hr2, hgd2]
      dsimp only
      have hdisp : dispatchDecrypt r2.algorithm (.asym n n)
          [streamEnc (rsaStream n) data] = .ok data := by
        rw [halg2, halg]
        unfold dispatchDecrypt decryptRSA
        dsimp only [List.headI]
        rw [streamDec_streamEnc]
      rw [hdisp]
  · intro n hp halg
    subst hp
    unfold encryptData
    rw [hr, hgd]
    dsimp only
    have hdisp : dispatchEncrypt r.algorithm (.asym n n) data iv eph =
        .error (.eccWrap .badPoint) := by
      rw [halg]
      exact encryptWithECC_badPoint data n iv eph
    rw [hdisp]
    rfl

/-- Counterexample to C1 as stated: an active AES-128-CBC key (16-byte
material, generated by `generateKey`) can never produce an envelope —
`encryptData` fails with the invalid-key-length error because the AES
helper hardcodes the `'aes-256-cbc'` cipher. -/
theorem aes128_roundtrip_counterexample :
    ((generateKey { masterKey := List.replicate 32 0 } Storage.init 1 [1] .aes128
        (List.replicate 16 3) 0 [9] (List.replicate 16 0) 5).2.getKey 1).map
      (fun r => (r.algorithm, r.status)) =
      some (Algorithm.aes128, KeyStatus.active) ∧
    (encryptData { masterKey := List.replicate 32 0 }
      (generateKey { masterKey := List.replicate 32 0 } Storage.init 1 [1] .aes128
        (List.replicate 16 3) 0 [9] (List.replicate 16 0) 5).2
      1 [7] 1 [] (List.replicate 16 0) 0 6).1 = .error .invalidKeyLen := by
  refine ⟨by decide, by decide⟩

/-- Witness for (amended) C1: a concrete AES-256 key round-trips, and
a concrete generated ECC-P256 key fails every encrypt with the
wrapped point error. -/
theorem roundtrip_by_algorithm_witness :
    (∃ env, (encryptData { masterKey := List.replicate 32 0 }
      (generateKey { masterKey := List.replicate 32 0 } Storage.init 1 [1] .aes256
        (List.replicate 32 7) 0 [9] (List.replicate 16 0) 5).2
      1 [5, 6] 1 [] (List.replicate 16 0) 0 6).1 = .ok env ∧
    (decryptData { masterKey := List.replicate 32 0 }
      (generateKey { masterKey := List.replicate 32 0 } Storage.init 1 [1] .aes256
        (List.replicate 32 7) 0 [9] (List.replicate 16 0) 5).2
      2 env 1 [] 7).1 = .ok [5, 6]) ∧
    (encryptData { masterKey := List.replicate 32 0 }
      (generateKey { masterKey := List.replicate 32 0 } Storage.init 1 [1] .eccP256
        [] 3 [9] (List.replicate 16 0) 5).2
      1 [5, 6] 1 [] (List.replicate 16 0) 0 6).1 =
      .error (.eccWrap .badPoint) := by
  constructor
  · obtain ⟨env, henc, hdec⟩ :=
      (roundtrip_by_algorithm { masterKey := List.replicate 32 0 }
        (generateKey { masterKey := List.replicate 32 0 } Storage.init 1 [1] .aes256
          (List.replicate 32 7) 0 [9] (List.replicate 16 0) 5).2
        1 [5, 6] 1 [] (List.replicate 16 0) 0 6
        { id := 1, name := [1], userId := 1, keyId := [9], algorithm := .aes256,
          keyData := streamEnc (keyStream (List.replicate 32 0) (List.replicate 16 0))
            (encodePayload (.aes (List.replicate 32 7))),
          iv := List.replicate 16 0, status := .active, createdAt := 5, updatedAt := 5,
          expiresAt := none, lastUsed := none }
        (.aes (List.replicate 32 7)) (by decide) (by decide) (by decide) (by decide)).1
        (List.replicate 32 7) rfl (by decide) rfl
    refine ⟨env, henc, hdec _ 2 [] 7
      { id := 1, name := [1], userId := 1, keyId := [9], algorithm := .aes256,
        keyData := streamEnc (keyStream (List.replicate 32 0) (List.replicate 16 0))
          (encodePayload (.aes (List.replicate 32 7))),
        iv := List.replicate 16 0, status := .active, createdAt := 5, updatedAt := 5,
        expiresAt := none, lastUsed := none }
      (by decide) (by decide) rfl (by decide)⟩
  · exact (roundtrip_by_algorithm { masterKey := List.replicate 32 0 }
      (generateKey { masterKey := List.replicate 32 0 } Storage.init 1 [1] .eccP256
        [] 3 [9] (List.replicate 16 0) 5).2
      1 [5, 6] 1 [] (List.replicate 16 0) 0 6
      { id := 1, name := [1], userId := 1, keyId := [9], algorithm := .eccP256,
        keyData := streamEnc (keyStream (List.replicate 32 0) (List.replicate 16 0))
          (encodePayload (.asym 3 3)),
        iv := List.replicate 16 0, status := .active, createdAt := 5, updatedAt := 5,
        expiresAt := none, lastUsed := none }
      (.asym 3 3) (by decide) (by decide) (by decide) (by decide)).2.2.2
      3 rfl rfl

/-! ## Claim C6: backup export/import -/

theorem findByKeyId_cons (x : KeyRec) (xs : List KeyRec) (kid : Seg) :
    findByKeyId (x :: xs) kid = if x.keyId = kid then some x else findByKeyId xs kid := rfl

theorem findByKeyId_append_none {l : List KeyRec} {kid : Seg} {nr : KeyRec}
    (h : findByKeyId l kid = none) (hne : ¬ nr.keyId = kid) :
    findByKeyId (l ++ [nr]) kid = none := by
  induction l with
  | nil => simp [findByKeyId, hne]
  | cons x xs ih =>
    rw [findByKeyId_cons] at h
    rw [List.cons_append, findByKeyId_cons]
    by_cases hx : x.keyId = kid
    · rw [if_pos hx] at h
      exact absurd h (by simp)
    · rw [if_neg hx] at h
      rw [if_neg hx]
      exact ih h

/-- Restore skips every entry whose `public_id` is already present. -/
theorem restoreEntries_all_present (uid now : Nat) :
    ∀ (entries : List BEntry) (st : Storage),
      (∀ e ∈ entries, st.getKeyByKeyId e.keyId ≠ none) →
      restoreEntries uid now st entries = (0, st) := by
  intro entries
  induction entries with
  | nil => intro st _; rfl
  | cons e es ih =>
    intro st h
    unfold restoreEntries
    cases hq : st.getKeyByKeyId e.keyId with
    | none => exact absurd hq (h e (List.mem_cons_self e es))
    | some k => exact ih st (fun e2 he2 => h e2 (List.mem_cons_of_mem e he2))

/-- Restore into a store where no entry's `public_id` exists creates
one record per entry, preserving `public_id`, algorithm, status,
wrapped material and wrap IV, owned by the importer. -/
theorem restoreEntries_none_present (uid now : Nat) :
    ∀ (entries : List BEntry) (st : Storage),
      (∀ e ∈ entries, st.getKeyByKeyId e.keyId = none) →
      (entries.map (fun e => e.keyId)).Nodup →
      (restoreEntries uid now st entries).1 = entries.length ∧
      ∃ newKeys, (restoreEntries uid now st entries).2.keys = st.keys ++ newKeys ∧
        List.Forall₂ (fun (e : BEntry) (nk : KeyRec) => nk.keyId = e.keyId ∧
          nk.algorithm = e.algorithm ∧ nk.status = e.status ∧
          nk.keyData = e.keyData ∧ nk.iv = e.iv ∧ nk.userId = uid) entries newKeys := by
  intro entries
  induction entries with
  | nil =>
    intro st _ _
    refine ⟨rfl, [], ?_, List.Forall₂.nil⟩
    show st.keys = st.keys ++ []
    rw [List.append_nil]
  | cons e es ih =>
    intro st h hnd
    unfold restoreEntries
    rw [show st.getKeyByKeyId e.keyId = none from h e (List.mem_cons_self e es)]
    dsimp only
    have hmem : e.keyId ∉ es.map (fun e2 => e2.keyId) := (List.nodup_cons.1 hnd).1
    have h1 : ∀ e2 ∈ es,
        ((st.createKey
          { name := e.name, userId := uid, keyId := e.keyId, algorithm := e.algorithm,
            keyData := e.keyData, iv := e.iv, status := e.status, expiresAt := none }
          now).2).getKeyByKeyId e2.keyId = none := by
      intro e2 he2
      have hne2 : ¬ e.keyId = e2.keyId := by
        intro hcontra
        exact hmem (hcontra ▸ List.mem_map_of_mem (fun e2 => e2.keyId) he2)
      exact findByKeyId_append_none (h e2 (List.mem_cons_of_mem e he2)) hne2
    obtain ⟨hc, newKeys, hkeys, hfa⟩ := ih _ h1 (List.nodup_cons.1 hnd).2
    cases hp : restoreEntries uid now (st.createKey
        { name := e.name, userId := uid, keyId := e.keyId, algorithm := e.algorithm,
          keyData := e.keyData, iv := e.iv, status := e.status, expiresAt := none }
        now).2 es with
    | mk c st2 =>
      rw [hp] at hc hkeys
      dsimp only at hc hkeys ⊢
      refine ⟨by rw [hc, List.length_cons], ?_⟩
      refine ⟨(⟨st.keyCtr, e.name, uid, e.keyId, e.algorithm, e.keyData, e.iv,
          e.status, now, now, none, none⟩ : KeyRec) :: newKeys, ?_,
        List.Forall₂.cons ⟨rfl, rfl, rfl, rfl, rfl, rfl⟩ hfa⟩
      rw [hkeys]
      show (st.keys ++ [_]) ++ newKeys = st.keys ++ _ :: newKeys
      rw [List.append_assoc]
      rfl

/-- C6: importing the artifact `export(owner)` produced is a no-op
(restored count 0, key table unchanged) in any registry where every
`public_id` of the artifact already exists; importing it where none of
the `public_id`s exist creates exactly one record per entry,
preserving `public_id`, algorithm, status, wrapped material and wrap
IV while assigning ownership to the importer, and returns the count of
created records. -/
theorem backup_restore_roundtrip (cfg : Config) (st : Storage) (uid : Nat) (iv : Seg)
    (now : Nat) (hmk : cfg.masterKey.length = 32) (hiv : iv.length = 16)
    (hne : ¬ (st.getUserKeys uid).length = 0) :
    ∃ art, (generateKeyBackup cfg st uid iv now).1 = .ok art ∧
      (∀ st2 uid2 now2,
        (∀ k ∈ st.getUserKeys uid, st2.getKeyByKeyId k.keyId ≠ none) →
        (restoreKeyBackup cfg st2 uid2 art now2).1 = .ok 0 ∧
        (restoreKeyBackup cfg st2 uid2 art now2).2.keys = st2.keys) ∧
      (∀ st2 uid2 now2,
        (∀ k ∈ st.getUserKeys uid, st2.getKeyByKeyId k.keyId = none) →
        ((st.getUserKeys uid).map (fun k => k.keyId)).Nodup →
        (restoreKeyBackup cfg st2 uid2 art now2).1 = .ok (st.getUserKeys uid).length ∧
        ∃ newKeys,
          (restoreKeyBackup cfg st2 uid2 art now2).2.keys = st2.keys ++ newKeys ∧
          List.Forall₂ (fun (k nk : KeyRec) => nk.keyId = k.keyId ∧
            nk.algorithm = k.algorithm ∧ nk.status = k.status ∧
            nk.keyData = k.keyData ∧ nk.iv = k.iv ∧ nk.userId = uid2)
            (st.getUserKeys uid) newKeys) := by
  refine ⟨[iv, streamEnc (keyStream cfg.masterKey iv)
    (encodeDoc ⟨backupVersion, now, (st.getUserKeys uid).map entryOfKey⟩)], ?_, ?_, ?_⟩
  · unfold generateKeyBackup
    rw [if_neg hne]
    unfold encryptAES
    dsimp only
    rw [if_neg (by omega), if_neg (by omega)]
  · intro st2 uid2 now2 h
    have hdec : decryptAES (streamEnc (keyStream cfg.masterKey iv)
        (encodeDoc ⟨backupVersion, now, (st.getUserKeys uid).map entryOfKey⟩))
        cfg.masterKey iv =
        .ok (encodeDoc ⟨backupVersion, now, (st.getUserKeys uid).map entryOfKey⟩) := by
      unfold decryptAES
      rw [if_neg (by omega), if_neg (by omega), streamDec_streamEnc]
    unfold restoreKeyBackup
    dsimp only
    rw [hdec]
    dsimp only
    rw [decodeDoc_encodeDoc]
    dsimp only
    have hall : ∀ e ∈ (st.getUserKeys uid).map entryOfKey,
        st2.getKeyByKeyId e.keyId ≠ none := by
      intro e he
      obtain ⟨k, hk, rfl⟩ := List.mem_map.1 he
      exact h k hk
    rw [restoreEntries_all_present uid2 now2 _ st2 hall]
    exact ⟨rfl, keys_recordAuditLog st2 _ now2⟩
  · intro st2 uid2 now2 h hnd
    have hdec : decryptAES (streamEnc (keyStream cfg.masterKey iv)
        (encodeDoc ⟨backupVersion, now, (st.getUserKeys uid).map entryOfKey⟩))
        cfg.masterKey iv =
        .ok (encodeDoc ⟨backupVersion, now, (st.getUserKeys uid).map entryOfKey⟩) := by
      unfold decryptAES
      rw [if_neg (by omega), if_neg (by omega), streamDec_streamEnc]
    unfold restoreKeyBackup
    dsimp only
    rw [hdec]
    dsimp only
    rw [decodeDoc_encodeDoc]
    dsimp only
    have hnone : ∀ e ∈ (st.getUserKeys uid).map entryOfKey,
        st2.getKeyByKeyId e.keyId = none := by
      intro e he
      obtain ⟨k, hk, rfl⟩ := List.mem_map.1 he
      exact h k hk
    have hnd2 : (((st.getUserKeys uid).map entryOfKey).map (fun e => e.keyId)).Nodup := by
      rw [List.map_map]
      exact hnd
    obtain ⟨hc, newKeys, hkeys, hfa⟩ :=
      restoreEntries_none_present uid2 now2 ((st.getUserKeys uid).map entryOfKey) st2
        hnone hnd2
    cases hp : restoreEntries uid2 now2 st2 ((st.getUserKeys uid).map entryOfKey) with
    | mk c stR =>
      rw [hp] at hc hkeys
      dsimp only at hc hkeys ⊢
      constructor
      · rw [show c = ((st.getUserKeys uid).map entryOfKey).length from hc,
          List.length_map]
      · refine ⟨newKeys, ?_, ?_⟩
        · rw [keys_recordAuditLog]
          exact hkeys
        · exact List.forall₂_map_left_iff.1 hfa

/-- Witness for C6: export one concrete key, import into the fresh
store, and one record is restored. -/
theorem backup_restore_roundtrip_witness :
    ∃ art, (generateKeyBackup ⟨List.replicate 32 0⟩
      (⟨[⟨1, [1], 1, [9], .aes256, [4], [5], .active, 0, 0, none, none⟩], [], [], 2, 1, 1⟩ : Storage)
      1 (List.replicate 16 0) 50).1 = .ok art ∧
    (restoreKeyBackup ⟨List.replicate 32 0⟩ Storage.init 2 art 60).1 = .ok 1 := by
  obtain ⟨art, henc, _, hfresh⟩ :=
    backup_restore_roundtrip ⟨List.replicate 32 0⟩
      (⟨[⟨1, [1], 1, [9], .aes256, [4], [5], .active, 0, 0, none, none⟩], [], [], 2, 1, 1⟩ : Storage)
      1 (List.replicate 16 0) 50 (by decide) (by decide) (by decide)
  obtain ⟨hcount, -⟩ := hfresh Storage.init 2 60 (by decide) (by decide)
  rw [show ((⟨[⟨1, [1], 1, [9], .aes256, [4], [5], .active, 0, 0, none, none⟩], [], [], 2, 1, 1⟩ : Storage).getUserKeys 1).length = 1 from by decide] at hcount
  exact ⟨art, henc, hcount⟩
